import Mathlib

/-! # Verification of the PDF link downloader (`main.go`)

A shallow embedding of the Go program `main.go` and proofs about it.

Conventions of the embedding:

* a Go `string` (and a `[]byte` read as text) is a `GoString`, a list of characters, so the texts
  considered are those that are valid UTF-8;
* a Go `map[string]bool` is an association list, a missing key reading as `false`;
* the filesystem and the network are explicit: a `World` holds the filesystem, the list of HTTP
  requests issued so far and the log; an `Env` holds what the outside world answers (server
  responses, failing system calls);
* the calls into the Go standard library are embedded as follows. The functions whose result
  matters only through a few of its properties (`sha256.Sum256`, `filepath.Join`, the Unicode case
  tables, the authority parser of `net/url`) are fields of a `Lib` structure, and every theorem
  holds for all of them. The others are written out after the library: `hex.EncodeToString`,
  `filepath.Ext`, `strings.ToLower`, `strings.Contains`, the matcher of `regexp` for the one
  pattern of the program, and `parse` of `net/url` with `viaRequest` set, which is
  `url.ParseRequestURI`.
-/

namespace PdfFetch

/-- A Go string: a sequence of characters. -/
abbrev GoString := List Char

/-! ## `removeDuplicatesFromSlice` -/

/-- A Go `map[string]bool`: the most recent binding of a key comes first. -/
abbrev GoMap := List (GoString × Bool)

/-- Map read `m[key]`: the zero value `false` when the key is absent. -/
def GoMap.get (m : GoMap) (key : GoString) : Bool :=
  match m with
  | [] => false
  | (k, v) :: rest => if k = key then v else GoMap.get rest key

/-- Map write `m[key] = v`. -/
def GoMap.set (m : GoMap) (key : GoString) (v : Bool) : GoMap :=
  (key, v) :: m

/-- The body of the `for _, content := range slice` loop of `removeDuplicatesFromSlice`, acting on
the pair `(check, newReturnSlice)`. -/
def removeDuplicatesStep (st : GoMap × List GoString) (content : GoString) :
    GoMap × List GoString :=
  if !st.1.get content then
    (st.1.set content true, st.2 ++ [content])
  else
    st

/-- Go `removeDuplicatesFromSlice`: starts from an empty map and an empty result slice and runs the
loop body over the input. -/
def removeDuplicatesFromSlice (slice : List GoString) : List GoString :=
  (slice.foldl removeDuplicatesStep (([] : GoMap), ([] : List GoString))).2


/-- Index of the first occurrence of `x` in `xs` (the length of `xs` when there is none). -/
def firstIndex (x : GoString) : List GoString → Nat
  | [] => 0
  | y :: ys => if y = x then 0 else firstIndex x ys + 1

/-- Loop invariant of `removeDuplicatesFromSlice`: the map holds `true` exactly for the strings
already in the result slice. -/
def DedupInv (st : GoMap × List GoString) : Prop :=
  ∀ k, st.1.get k = true ↔ k ∈ st.2


/-! ## The standard-library functions taken as parameters -/

/-- A byte. -/
abbrev Byte := Fin 256

/-- A SHA-256 digest, Go `[32]byte`. -/
structure Digest where
  /-- The bytes of the digest, first byte first. -/
  bytes : List Byte
  /-- A digest has 32 bytes. -/
  size : bytes.length = 32
deriving DecidableEq

/-- The functions of the Go standard library that the program calls and that are left abstract:
every theorem below holds whatever they compute. -/
structure Lib where
  /-- Go `sha256.Sum256`, from the bytes of the input to the 32-byte digest. -/
  sum256 : List Byte → Digest
  /-- Go `unicode.ToLower`, which `strings.ToLower` applies to every character of a string that is
  not pure ASCII. -/
  unicodeToLower : Char → Char
  /-- Go `filepath.Join` of a directory and a file name. -/
  join : GoString → GoString → GoString
  /-- Whether `parseAuthority` of `net/url` accepts an authority (`user:password@host:port`). -/
  parseAuthority : GoString → Bool

/-- The conversion `[]byte(s)`: the UTF-8 encoding of the string. -/
def toBytes (s : GoString) : List Byte :=
  s.flatMap fun c =>
    (String.utf8EncodeChar c).map fun b => ⟨b.toNat % 256, Nat.mod_lt _ (by decide)⟩

/-! ## `generateHash`, `getFileExtension`, `urlToFilename` -/

/-- The table `hextable` of `encoding/hex`. -/
def hextable : GoString := "0123456789abcdef".toList

/-- The character `hextable[i]`. -/
def hexDigit (i : Nat) : Char := hextable.getD i '0'

/-- Go `hex.EncodeToString`: every byte `v` becomes `hextable[v>>4]` and `hextable[v&0x0f]`. -/
def encodeToString : List Byte → GoString
  | [] => []
  | v :: rest => hexDigit (v.val >>> 4) :: hexDigit (v.val &&& 0x0f) :: encodeToString rest

/-- Go `generateHash`: the hex encoding of the SHA-256 digest of the bytes of the input. -/
def generateHash (L : Lib) (input : GoString) : GoString :=
  let hash := L.sum256 (toBytes input)
  encodeToString hash.bytes

/-- The loop of `filepath.Ext`, run over the path from its last character backwards: `rev` is what
is still to be inspected (last character first) and `acc` the characters already passed. The loop
stops at a path separator with the empty extension and at the first dot with the suffix that
starts there. -/
def extLoop : GoString → GoString → GoString
  | [], _ => []
  | c :: rev, acc =>
    if c = '/' then []
    else if c = '.' then c :: acc
    else extLoop rev (c :: acc)

/-- Go `getFileExtension`, that is `filepath.Ext`: the suffix of the path that starts at the last
dot of its last element, empty when there is no such dot. The path separator is `/`. -/
def getFileExtension (path : GoString) : GoString :=
  extLoop path.reverse []

/-- The ASCII branch of `strings.ToLower` on one character: `c += 'a' - 'A'` for `'A' ≤ c ≤ 'Z'`. -/
def asciiToLower (c : Char) : Char :=
  if 'A' ≤ c ∧ c ≤ 'Z' then Char.ofNat (c.toNat + ('a'.toNat - 'A'.toNat)) else c

/-- Go `strings.ToLower`: a string of ASCII characters only has its letters `A` to `Z` lowered; any
other string is mapped through `unicode.ToLower`. -/
def toLower (L : Lib) (s : GoString) : GoString :=
  if s.all (fun c => decide (c.toNat < 0x80)) then s.map asciiToLower
  else s.map L.unicodeToLower

/-- Go `urlToFilename`. -/
def urlToFilename (L : Lib) (rawURL : GoString) : GoString :=
  let sanitized := generateHash L rawURL
  let sanitized :=
    if getFileExtension sanitized ≠ ".pdf".toList then sanitized ++ ".pdf".toList else sanitized
  toLower L sanitized

/-! ## `extractPDFUrls`

The pattern `href="([^"]+\.pdf)"` uses literal characters, one negated character class, one greedy
`+` and one capturing group. The matcher below runs such patterns with the semantics of Go's
`regexp` package: the match that starts leftmost in the input, and among those the one a
backtracking search finds first (a greedy `+` tries the longest repetition first). -/

/-- The one-character parts of a pattern. -/
inductive CharClass where
  /-- A literal character (`h`, or the escaped dot `\.`). -/
  | lit (c : Char)
  /-- The negated class `[^c]`: any character but `c`, line ends included. -/
  | notLit (c : Char)
deriving DecidableEq

/-- Whether a character belongs to a class. -/
def CharClass.test : CharClass → Char → Bool
  | .lit c, d => d == c
  | .notLit c, d => d != c

/-- The parts of a pattern, in sequence. -/
inductive Item where
  /-- One character of the class. -/
  | one (cls : CharClass)
  /-- One or more characters of the class, as many as possible (`x+`). -/
  | plus (cls : CharClass)
  /-- The start `(` of capturing group 1. -/
  | capOpen
  /-- The end `)` of capturing group 1. -/
  | capClose
deriving DecidableEq

/-- The positions of a match: where the match starts and ends (`m0`, `m1`) and where group 1
starts and ends (`c0`, `c1`); the `[]int` that `regexp` passes around. -/
structure Match where
  /-- Start of the match. -/
  m0 : Nat
  /-- End of the match. -/
  m1 : Nat
  /-- Start of group 1. -/
  c0 : Nat
  /-- End of group 1. -/
  c1 : Nat
deriving DecidableEq

/-- The repetition `cls+` followed by the rest of the pattern `k`, at position `pos` of the input
with `s` still to read: one character of the class is consumed, then the repetition is tried again
before the rest of the pattern is (greedy). -/
def plusLoop {α : Type} (cls : CharClass) (k : GoString → Nat → Option α) :
    GoString → Nat → Option α
  | [], _ => none
  | c :: s, pos =>
    if cls.test c then
      match plusLoop cls k s (pos + 1) with
      | some r => some r
      | none => k s (pos + 1)
    else none

/-- Match a pattern at position `pos` of the input, `s` being the input from `pos` on; `m0` is
where the match started and `c0`, `c1` the bounds of group 1 recorded so far. -/
def matchItems : List Item → Nat → Nat → Nat → GoString → Nat → Option Match
  | [], m0, c0, c1, _, pos => some ⟨m0, pos, c0, c1⟩
  | .one _ :: _, _, _, _, [], _ => none
  | .one cls :: rest, m0, c0, c1, c :: s, pos =>
    if cls.test c then matchItems rest m0 c0 c1 s (pos + 1) else none
  | .plus cls :: rest, m0, c0, c1, s, pos => plusLoop cls (matchItems rest m0 c0 c1) s pos
  | .capOpen :: rest, m0, _, c1, s, pos => matchItems rest m0 pos c1 s pos
  | .capClose :: rest, m0, c0, _, s, pos => matchItems rest m0 c0 pos s pos

/-- The unanchored search of `regexp`: the match at the first position, from `pos` on, where the
pattern matches; `s` is the input from `pos` on. -/
def search (prog : List Item) : GoString → Nat → Option Match
  | [], pos => matchItems prog pos 0 0 [] pos
  | c :: s, pos =>
    match matchItems prog pos 0 0 (c :: s) pos with
    | some m => some m
    | none => search prog s (pos + 1)

/-- The loop of `(*Regexp).allMatches` with `n = -1`, bounded by `fuel` iterations: search from
`pos`, deliver the match and go on from its end. An empty match is not delivered when it starts
where the previous match ended (`prevMatchEnd`), and the search then moves one character on. -/
def allMatchesLoop (prog : List Item) (input : GoString) :
    Nat → Nat → Option Nat → List Match
  | 0, _, _ => []
  | fuel + 1, pos, prevMatchEnd =>
    if pos ≤ input.length then
      match search prog (input.drop pos) pos with
      | none => []
      | some m =>
        if m.m1 = pos then
          if some m.m0 = prevMatchEnd then allMatchesLoop prog input fuel (pos + 1) (some m.m1)
          else m :: allMatchesLoop prog input fuel (pos + 1) (some m.m1)
        else m :: allMatchesLoop prog input fuel m.m1 (some m.m1)
    else []

/-- Go `(*Regexp).allMatches` from position 0. Every iteration of the loop moves `pos` forward and
the loop stops once `pos` is beyond the end of the input, so `len(input) + 1` iterations are
all there can be. -/
def allMatches (prog : List Item) (input : GoString) : List Match :=
  allMatchesLoop prog input (input.length + 1) 0 none

/-- The Go slice expression `s[a:b]`. -/
def slice (s : GoString) (a b : Nat) : GoString :=
  (s.drop a).take (b - a)

/-- Go `(*Regexp).FindAllStringSubmatch(input, -1)` for a pattern with one group: for every match
the text of the match and the text of group 1. -/
def findAllStringSubmatch (prog : List Item) (input : GoString) : List (List GoString) :=
  (allMatches prog input).map fun m => [slice input m.m0 m.m1, slice input m.c0 m.c1]

/-- The compiled pattern `href="([^"]+\.pdf)"`. -/
def pdfLinkPattern : List Item :=
  [.one (.lit 'h'), .one (.lit 'r'), .one (.lit 'e'), .one (.lit 'f'), .one (.lit '='),
   .one (.lit '"'),
   .capOpen,
   .plus (.notLit '"'),
   .one (.lit '.'), .one (.lit 'p'), .one (.lit 'd'), .one (.lit 'f'),
   .capClose,
   .one (.lit '"')]

/-- Go `extractPDFUrls`: group 1 of every match of the pattern, in the order of the matches. -/
def extractPDFUrls (input : GoString) : List GoString :=
  let found := findAllStringSubmatch pdfLinkPattern input
  found.foldl (fun pdfUrls m => if m.length > 1 then pdfUrls ++ [m.getD 1 []] else pdfUrls) []

/-! ### What `extractPDFUrls` is to return -/

/-- The text `href="` that opens a link. -/
def hrefOpen : GoString := "href=\"".toList

/-- The suffix `.pdf`. -/
def pdfSuffix : GoString := ".pdf".toList

/-- The text `s` starts with a PDF link of URL `u`: `href="`, then `u`, then `"`, where `u` has
no double quote and is one or more characters followed by `.pdf`. -/
def HrefPdfPrefix (s u : GoString) : Prop :=
  ∃ stem post, stem ≠ [] ∧ u = stem ++ pdfSuffix ∧ '"' ∉ u ∧ s = hrefOpen ++ u ++ '"' :: post

/-- There is a PDF link of URL `u` at offset `i` of the input. -/
def HrefPdfAt (input : GoString) (i : Nat) (u : GoString) : Prop :=
  i ≤ input.length ∧ HrefPdfPrefix (input.drop i) u

/-- The part of the pattern after the repetition: `\.pdf)"`. -/
def pdfLinkTail : List Item :=
  [.one (.lit '.'), .one (.lit 'p'), .one (.lit 'd'), .one (.lit 'f'), .capClose, .one (.lit '"')]

/-- The listing page of Scenario 1. -/
def scenario1Html : GoString :=
  ("<a href=\"https://x.com/a.pdf\">A</a><a href=\"https://x.com/a.pdf\">A2</a>" ++
    "<a href=\"https://x.com/b.pdf\">B</a>").toList

/-! ## `isUrlValid`

`isUrlValid` succeeds exactly when `url.ParseRequestURI` returns no error, and `ParseRequestURI`
is `parse(rawURL, true)` of `net/url`. The routine is followed branch by branch; only the error
is kept of its result, the one thing `isUrlValid` looks at. -/

/-- Go `stringContainsCTLByte`: some byte is below `' '` or is `0x7f`. -/
def stringContainsCTLByte (s : GoString) : Bool :=
  s.any fun c => decide (c.toNat < 0x20) || decide (c.toNat = 0x7f)

/-- The loop of `getScheme` of `net/url` at index `i`, `rest` being `rawURL[i:]`: the scheme and
what follows its colon, or the whole text with an empty scheme when the text does not start with
a scheme, or an error when it starts with a colon. -/
def getSchemeLoop (rawURL : GoString) : GoString → Nat → Except String (GoString × GoString)
  | [], _ => .ok ([], rawURL)
  | c :: rest, i =>
    if ('a' ≤ c ∧ c ≤ 'z') ∨ ('A' ≤ c ∧ c ≤ 'Z') then
      getSchemeLoop rawURL rest (i + 1)
    else if ('0' ≤ c ∧ c ≤ '9') ∨ c = '+' ∨ c = '-' ∨ c = '.' then
      if i = 0 then .ok ([], rawURL) else getSchemeLoop rawURL rest (i + 1)
    else if c = ':' then
      if i = 0 then .error "missing protocol scheme"
      else .ok (rawURL.take i, rawURL.drop (i + 1))
    else
      .ok ([], rawURL)

/-- Go `getScheme` of `net/url`. -/
def getScheme (rawURL : GoString) : Except String (GoString × GoString) :=
  getSchemeLoop rawURL rawURL 0

/-- Go `ishex` of `net/url`. -/
def ishex (c : Char) : Bool :=
  decide ('0' ≤ c ∧ c ≤ '9') || decide ('a' ≤ c ∧ c ≤ 'f') || decide ('A' ≤ c ∧ c ≤ 'F')

/-- The check of `unescape(s, encodePath)` of `net/url`, the one way `setPath` fails: every `%`
is followed by two hex digits. -/
def unescapePathOk : GoString → Bool
  | [] => true
  | c :: rest =>
    if c = '%' then
      match rest with
      | a :: b :: rest' => if ishex a && ishex b then unescapePathOk rest' else false
      | _ => false
    else unescapePathOk rest

/-- Go `strings.HasPrefix`. -/
def hasPrefix (s pre : GoString) : Bool := pre.isPrefixOf s

/-- The query split of `parse`: a lone final `?` is dropped, otherwise the text is cut at the
first `?`; the result is what is left of `rest`. -/
def cutQuery (rest : GoString) : GoString :=
  if rest.getLast? = some '?' ∧ rest.count '?' = 1 then rest.dropLast
  else rest.takeWhile (· ≠ '?')

/-- Go `parse(rawURL, viaRequest)` of `net/url`, reduced to its error. -/
def parse (L : Lib) (rawURL : GoString) (viaRequest : Bool) : Except String Unit :=
  if stringContainsCTLByte rawURL then
    .error "net/url: invalid control character in URL"
  else if rawURL = [] ∧ viaRequest then
    .error "empty url"
  else if rawURL = ['*'] then
    .ok ()
  else
    match getScheme rawURL with
    | .error e => .error e
    | .ok (scheme, rest) =>
      let rest := cutQuery rest
      if !hasPrefix rest ['/'] ∧ scheme ≠ [] then
        .ok ()
      else if !hasPrefix rest ['/'] ∧ viaRequest then
        .error "invalid URI for request"
      else if !hasPrefix rest ['/'] ∧ ':' ∈ rest.takeWhile (· ≠ '/') then
        .error "first path segment in URL cannot contain colon"
      else if (scheme ≠ [] ∨ (!viaRequest ∧ !hasPrefix rest ['/', '/', '/'])) ∧
          hasPrefix rest ['/', '/'] then
        let authority := (rest.drop 2).takeWhile (· ≠ '/')
        let rest := (rest.drop 2).dropWhile (· ≠ '/')
        if L.parseAuthority authority then
          if unescapePathOk rest then .ok () else .error "invalid URL escape"
        else .error "invalid authority"
      else
        if unescapePathOk rest then .ok () else .error "invalid URL escape"

/-- Go `url.ParseRequestURI`. -/
def parseRequestURI (L : Lib) (rawURL : GoString) : Except String Unit :=
  parse L rawURL true

/-- Go `isUrlValid`: whether `url.ParseRequestURI` returns no error. -/
def isUrlValid (L : Lib) (uri : GoString) : Bool :=
  match parseRequestURI L uri with
  | .ok _ => true
  | .error _ => false

/-! ## The filesystem, the network and the log -/

/-- What a path of the filesystem holds. -/
inductive Node where
  /-- A regular file and its content. -/
  | file (content : GoString)
  /-- A directory. -/
  | dir
deriving DecidableEq

/-- The filesystem: what every path holds, `none` for a path that does not exist. -/
abbrev FS := GoString → Option Node

/-- The filesystem with `node` at `path`. -/
def FS.put (fs : FS) (path : GoString) (node : Node) : FS :=
  fun p => if p = path then some node else fs p

/-- The lines the program logs. -/
inductive LogLine where
  /-- The line `file already exists, skipping: <path>` of `downloadPDF`. -/
  | skipExisting (path : GoString)
  /-- The line `Failed to make GET request:` of `getDataFromURL`. -/
  | getFailed
  /-- The line `Unexpected status code from <uri> -> <code>` of `getDataFromURL`. -/
  | unexpectedStatus (uri : GoString) (code : Nat)
  /-- The line `Failed to read response body:` of `getDataFromURL`. -/
  | readBodyFailed
  /-- The line `Failed to close response body:` of `getDataFromURL`. -/
  | closeBodyFailed
  /-- The line `Failed to write to file:` of `getDataFromURL`. -/
  | writeFileFailed
  /-- The error that `createDirectory` logs. -/
  | mkdirFailed (path : GoString)
  /-- The error that `readAFileAsString` logs before it exits. -/
  | readFileFailed (path : GoString)
deriving DecidableEq

/-- The state the program acts on. -/
structure World where
  /-- The filesystem. -/
  fs : FS
  /-- The URLs of the GET requests issued so far, oldest first. -/
  requests : List GoString
  /-- The lines logged so far, oldest first. -/
  log : List LogLine

/-- The response to a GET request, as the program reads it. -/
structure Response where
  /-- The field `StatusCode`. -/
  statusCode : Nat
  /-- The value of `Header.Get("Content-Type")`, empty when the header is absent. -/
  contentType : GoString
  /-- The bytes read from the body. -/
  body : GoString
  /-- Whether reading the body ends with an error. -/
  readFails : Bool
  /-- Whether closing the body returns an error. -/
  closeFails : Bool

/-- What the outside world answers to the program. -/
structure Env where
  /-- The outcome of `client.Get(url)`: `none` for an error. -/
  get : GoString → Option Response
  /-- Whether `os.Create(path)` fails (for another reason than a directory at `path`). -/
  createFails : GoString → Bool
  /-- Whether writing to the file at `path` fails: `some n` when the write stops with an error
  after `n` bytes. -/
  writeFails : GoString → Option Nat
  /-- Whether `os.Mkdir(path)` fails (for another reason than `path` existing). -/
  mkdirFails : GoString → Bool
  /-- Whether `os.OpenFile(path)` for appending fails (for another reason than a directory at
  `path`). -/
  openFails : GoString → Bool
  /-- Whether `os.ReadFile(path)` fails (for another reason than no file at `path`). -/
  readFails : GoString → Bool

/-- How a function ends: it returns, or the process exits (`log.Fatalln`). -/
inductive Outcome where
  /-- The function returned; the state it leaves. -/
  | returned (w : World)
  /-- The process exited with the given status; the state it leaves. -/
  | exited (code : Nat) (w : World)

/-- The state at the end, either way. -/
def Outcome.world : Outcome → World
  | .returned w => w
  | .exited _ w => w

/-- Go `fileExists`: `os.Stat` succeeds and the path is not a directory. `os.Stat` is the lookup
of the path in the filesystem. -/
def fileExists (w : World) (filename : GoString) : Bool :=
  match w.fs filename with
  | none => false
  | some info => decide (info ≠ .dir)

/-- Go `directoryExists`: `os.Stat` succeeds and the path is a directory. -/
def directoryExists (w : World) (path : GoString) : Bool :=
  match w.fs path with
  | none => false
  | some directory => decide (directory = .dir)

/-- Go `createDirectory`: `os.Mkdir`, whose error is logged. -/
def createDirectory (env : Env) (path : GoString) (_permission : Nat) (w : World) : World :=
  if (w.fs path).isSome ∨ env.mkdirFails path then
    { w with log := w.log ++ [.mkdirFailed path] }
  else
    { w with fs := w.fs.put path .dir }

/-- Go `os.Create(path)`: the file is created empty, or emptied when it exists; `none` for an
error. -/
def osCreate (env : Env) (path : GoString) (w : World) : Option World :=
  if w.fs path = some .dir ∨ env.createFails path then none
  else some { w with fs := w.fs.put path (.file []) }

/-- The content of the file at `path`, empty when there is no file. -/
def contentAt (w : World) (path : GoString) : GoString :=
  match w.fs path with
  | some (.file content) => content
  | _ => []

/-- Writing `data` at the end of the open file at `path`: all of it, or its first `n` bytes when
the write fails after `n` bytes. The flag tells whether the write succeeded. -/
def fileWrite (env : Env) (path : GoString) (data : GoString) (w : World) : Bool × World :=
  match env.writeFails path with
  | none => (true, { w with fs := w.fs.put path (.file (contentAt w path ++ data)) })
  | some n => (false, { w with fs := w.fs.put path (.file (contentAt w path ++ data.take n)) })

/-- Go `strings.Contains`. -/
def stringsContains : GoString → GoString → Bool
  | [], substr => substr.isEmpty
  | c :: s, substr => substr.isPrefixOf (c :: s) || stringsContains s substr

/-! ## `downloadPDF` -/

/-- Go `downloadPDF`. -/
def downloadPDF (L : Lib) (env : Env) (finalURL outputDir : GoString) (w : World) : Outcome :=
  let rawFilename := urlToFilename L finalURL
  let filename := toLower L rawFilename
  let filePath := L.join outputDir filename
  if fileExists w filePath then
    .returned { w with log := w.log ++ [.skipExisting filePath] }
  else
    let w := { w with requests := w.requests ++ [finalURL] }
    match env.get finalURL with
    | none => .returned w
    | some resp =>
      if resp.statusCode ≠ 200 then .returned w
      else if !stringsContains resp.contentType "application/pdf".toList then .returned w
      else if resp.readFails then .returned w
      else if resp.body.length = 0 then .returned w
      else
        match osCreate env filePath w with
        | none => .returned w
        | some w =>
          match fileWrite env filePath resp.body w with
          | (false, w) => .returned w
          | (true, w) => .returned w

/-! ## `getDataFromURL`, `readAFileAsString`, `main` -/

/-- Go `appendByteToFile`: the file is opened for appending, created when missing, and the data
written to it. The flag tells whether there was no error. -/
def appendByteToFile (env : Env) (filename : GoString) (data : GoString) (w : World) :
    Bool × World :=
  if w.fs filename = some .dir ∨ env.openFails filename then (false, w)
  else
    let w := if (w.fs filename).isSome then w else { w with fs := w.fs.put filename (.file []) }
    fileWrite env filename data w

/-- Go `getDataFromURL`. -/
def getDataFromURL (env : Env) (uri fileName : GoString) (w : World) : World :=
  let w := { w with requests := w.requests ++ [uri] }
  match env.get uri with
  | none => { w with log := w.log ++ [.getFailed] }
  | some response =>
    if response.statusCode ≠ 200 then
      { w with log := w.log ++ [.unexpectedStatus uri response.statusCode] }
    else if response.readFails then { w with log := w.log ++ [.readBodyFailed] }
    else if response.closeFails then { w with log := w.log ++ [.closeBodyFailed] }
    else
      match appendByteToFile env fileName response.body w with
      | (false, w) => { w with log := w.log ++ [.writeFileFailed] }
      | (true, w) => w

/-- Go `readAFileAsString`: the content of the file, or the exit of the process when the file
cannot be read. -/
def readAFileAsString (env : Env) (path : GoString) (w : World) : Except World GoString :=
  match w.fs path with
  | some (.file content) =>
    if env.readFails path then .error { w with log := w.log ++ [.readFileFailed path] }
    else .ok content
  | _ => .error { w with log := w.log ++ [.readFileFailed path] }

/-- The loop `for _, url := range extractedPDFURLOnly` of `main`. -/
def downloadLoop (L : Lib) (env : Env) (outputDir : GoString) : List GoString → World → Outcome
  | [], w => .returned w
  | url :: rest, w =>
    if isUrlValid L url then
      match downloadPDF L env url outputDir w with
      | .returned w => downloadLoop L env outputDir rest w
      | .exited code w => .exited code w
    else downloadLoop L env outputDir rest w

/-- The constant `remoteURL` of `main`. -/
def remoteURL : GoString := "https://www.zerozerorobotics.com/support/downloads".toList

/-- The constant `localHTMLFileRemoteLocation` of `main`. -/
def localHTMLFileRemoteLocation : GoString := "zerozerorobotics.html".toList

/-- The constant `outputDir` of `main`. -/
def outputDir : GoString := "PDFs/".toList

/-- The state of `main` when it reaches the extraction: the output directory is created when
missing and the listing page fetched when it is not on disk. -/
def mainSetup (env : Env) (w : World) : World :=
  let w := if !directoryExists w outputDir then createDirectory env outputDir 0o755 w else w
  if !fileExists w localHTMLFileRemoteLocation then
    getDataFromURL env remoteURL localHTMLFileRemoteLocation w
  else w

/-- The links `main` loops over when the listing page reads `readFileContent`. -/
def mainLinks (readFileContent : GoString) : List GoString :=
  removeDuplicatesFromSlice (extractPDFUrls readFileContent)

/-- Go `main`. -/
def main (L : Lib) (env : Env) (w : World) : Outcome :=
  let w := mainSetup env w
  let readFileContent : Except World GoString :=
    if fileExists w localHTMLFileRemoteLocation then
      readAFileAsString env localHTMLFileRemoteLocation w
    else .ok []
  match readFileContent with
  | .error w => .exited 1 w
  | .ok readFileContent => downloadLoop L env outputDir (mainLinks readFileContent) w

/-! ### The artifact of a URL -/

/-- The path of the artifact of `url` in `outputDir`: the directory joined with the hex encoding
of the SHA-256 digest of the URL followed by `.pdf`. -/
def artifactPath (L : Lib) (outputDir url : GoString) : GoString :=
  L.join outputDir (encodeToString (L.sum256 (toBytes url)).bytes ++ ".pdf".toList)

/-- The response is the one `downloadPDF` accepts: status 200, a `Content-Type` that contains
`application/pdf`, and a body that is read without error and is not empty. -/
def Response.IsPdf (resp : Response) : Prop :=
  resp.statusCode = 200 ∧ stringsContains resp.contentType "application/pdf".toList = true ∧
    resp.readFails = false ∧ resp.body ≠ []

/-! ### A concrete library, world and responses, for the examples -/

/-- A library for the examples: a constant digest, the identity for the case table, the plain
concatenation for `filepath.Join`, and an authority parser that accepts everything. -/
def exampleLib : Lib :=
  ⟨fun _ => ⟨List.replicate 32 0, by simp⟩, fun c => c, fun dir name => dir ++ name, fun _ => true⟩

/-- The empty world: no file, no request, no log line. -/
def emptyWorld : World := ⟨fun _ => none, [], []⟩

/-- An outside world that answers every GET with `resp`, where `os.Create` fails when
`createFails` is set and a write fails as `writeFails` says. -/
def exampleEnv (resp : Option Response) (createFails : Bool) (writeFails : Option Nat) : Env :=
  ⟨fun _ => resp, fun _ => createFails, fun _ => writeFails, fun _ => false, fun _ => false,
    fun _ => false⟩

/-- A response that carries a PDF (Scenario 2). -/
def pdfResponse : Response :=
  ⟨200, "application/pdf".toList, "%PDF-1.4".toList, false, false⟩

/-- A response with status 404 (Scenario 3). -/
def notFoundResponse : Response :=
  ⟨404, "text/html".toList, "not found".toList, false, false⟩

/-- A response with status 200 and `Content-Type: text/html` (Scenario 4). -/
def htmlResponse : Response :=
  ⟨200, "text/html".toList, "<html></html>".toList, false, false⟩

/-- The URL of the examples. -/
def exampleURL : GoString := "https://x.com/a.pdf".toList

/-- A world whose filesystem holds the output directory `PDFs/` and nothing else, with no request
issued and nothing logged. -/
def outputDirWorld : World :=
  ⟨fun p => if p = outputDir then some .dir else none, [], []⟩
/-! ## Proofs: `removeDuplicatesFromSlice` -/

theorem firstIndex_cons_ne {x y : GoString} (ys : List GoString) (h : y ≠ x) :
    firstIndex x (y :: ys) = firstIndex x ys + 1 := by
  simp [firstIndex, h]

theorem firstIndex_cons_self (x : GoString) (ys : List GoString) :
    firstIndex x (x :: ys) = 0 := by
  simp [firstIndex]

theorem GoMap.get_set (m : GoMap) (key k : GoString) (v : Bool) :
    (m.set key v).get k = if key = k then v else m.get k := by
  simp [GoMap.set, GoMap.get]

theorem dedupInv_step (st : GoMap × List GoString) (x : GoString) (h : DedupInv st) :
    DedupInv (removeDuplicatesStep st x) := by
  unfold removeDuplicatesStep
  split
  · intro k
    simp only [GoMap.get_set, List.mem_append, List.mem_singleton]
    by_cases hk : x = k
    · simp [hk]
    · simp only [hk, if_false, h k]
      constructor
      · intro hm; exact Or.inl hm
      · rintro (hm | hm)
        · exact hm
        · exact absurd hm.symm hk
  · exact h

/-- What the loop adds to the result slice when run over `xs` from a state satisfying the
invariant. -/
theorem removeDuplicates_loop (xs : List GoString) :
    ∀ st : GoMap × List GoString, DedupInv st →
      ∃ r, (xs.foldl removeDuplicatesStep st).2 = st.2 ++ r ∧ r.Nodup ∧
        (∀ s, s ∈ r ↔ s ∈ xs ∧ s ∉ st.2) ∧ r.Sublist xs ∧
        r.Pairwise (fun a b => firstIndex a xs < firstIndex b xs) := by
  induction xs with
  | nil => intro st _; exact ⟨[], by simp⟩
  | cons x xs ih =>
    intro st hst
    obtain ⟨r, hr, hnd, hmem, hsub, hord⟩ := ih (removeDuplicatesStep st x) (dedupInv_step st x hst)
    rw [List.foldl_cons, hr]
    by_cases hx : x ∈ st.2
    · have hstep : removeDuplicatesStep st x = st := by
        unfold removeDuplicatesStep
        rw [if_neg]
        simp [(hst x).2 hx]
      rw [hstep] at hmem ⊢
      refine ⟨r, rfl, hnd, ?_, hsub.cons x, ?_⟩
      · intro s
        rw [hmem s, List.mem_cons]
        constructor
        · rintro ⟨h1, h2⟩; exact ⟨Or.inr h1, h2⟩
        · rintro ⟨h1 | h1, h2⟩
          · exact absurd (h1 ▸ hx) h2
          · exact ⟨h1, h2⟩
      · refine (List.Pairwise.and_mem.1 hord).imp ?_
        rintro a b ⟨ha, hb, hab⟩
        have hax : a ≠ x := fun h => ((hmem a).1 ha).2 (h ▸ hx)
        have hbx : b ≠ x := fun h => ((hmem b).1 hb).2 (h ▸ hx)
        rw [firstIndex_cons_ne _ hax.symm, firstIndex_cons_ne _ hbx.symm]
        exact Nat.succ_lt_succ hab
    · have hstep : removeDuplicatesStep st x = (st.1.set x true, st.2 ++ [x]) := by
        unfold removeDuplicatesStep
        rw [if_pos]
        cases hg : st.1.get x
        · rfl
        · exact absurd ((hst x).1 hg) hx
      rw [hstep] at hmem ⊢
      simp only [List.mem_append, List.mem_singleton, not_or] at hmem
      have hxr : x ∉ r := fun h => ((hmem x).1 h).2.2 rfl
      refine ⟨x :: r, by simp, List.nodup_cons.2 ⟨hxr, hnd⟩, ?_, hsub.cons₂ x, ?_⟩
      · intro s
        rw [List.mem_cons, hmem s, List.mem_cons]
        constructor
        · rintro (h | ⟨h1, h2, _⟩)
          · exact ⟨Or.inl h, h ▸ hx⟩
          · exact ⟨Or.inr h1, h2⟩
        · rintro ⟨h1 | h1, h2⟩
          · exact Or.inl h1
          · by_cases hs : s = x
            · exact Or.inl hs
            · exact Or.inr ⟨h1, h2, hs⟩
      · refine List.pairwise_cons.2 ⟨?_, ?_⟩
        · intro b hb
          have hbx : b ≠ x := fun h => hxr (h ▸ hb)
          rw [firstIndex_cons_self, firstIndex_cons_ne _ hbx.symm]
          exact Nat.succ_pos _
        · refine (List.Pairwise.and_mem.1 hord).imp ?_
          rintro a b ⟨ha, hb, hab⟩
          have hax : a ≠ x := fun h => hxr (h ▸ ha)
          have hbx : b ≠ x := fun h => hxr (h ▸ hb)
          rw [firstIndex_cons_ne _ hax.symm, firstIndex_cons_ne _ hbx.symm]
          exact Nat.succ_lt_succ hab

/-- C1: `removeDuplicatesFromSlice xs` is the subsequence of first occurrences of `xs`: it has no
repeated element, holds exactly the strings of `xs`, is a subsequence of `xs`, and lists its
elements by increasing index of first occurrence in `xs`; on `[a.pdf, a.pdf, b.pdf]` (with the
URLs of Scenario 1) it gives `[a.pdf, b.pdf]`. -/
theorem removeDuplicatesFromSlice_first_occurrences (xs : List GoString) :
    (removeDuplicatesFromSlice xs).Nodup ∧
    (∀ s, s ∈ removeDuplicatesFromSlice xs ↔ s ∈ xs) ∧
    (removeDuplicatesFromSlice xs).Sublist xs ∧
    (removeDuplicatesFromSlice xs).Pairwise (fun a b => firstIndex a xs < firstIndex b xs) ∧
    removeDuplicatesFromSlice
        ["https://x.com/a.pdf".toList, "https://x.com/a.pdf".toList, "https://x.com/b.pdf".toList]
      = ["https://x.com/a.pdf".toList, "https://x.com/b.pdf".toList] := by
  obtain ⟨r, hr, hnd, hmem, hsub, hord⟩ :=
    removeDuplicates_loop xs (([] : GoMap), ([] : List GoString)) (by intro k; simp [GoMap.get])
  have hres : removeDuplicatesFromSlice xs = r := by
    simpa [removeDuplicatesFromSlice] using hr
  rw [hres]
  refine ⟨hnd, ?_, hsub, hord, by decide⟩
  intro s
  simp [hmem s]


/-! ## Proofs: file names -/

theorem hexDigit_mem_hextable (i : Nat) (h : i < 16) : hexDigit i ∈ hextable := by
  have : ∀ j : Fin 16, hexDigit j.val ∈ hextable := by decide
  exact this ⟨i, h⟩

theorem hexDigit_injective (i j : Nat) (hi : i < 16) (hj : j < 16)
    (h : hexDigit i = hexDigit j) : i = j := by
  have : ∀ a b : Fin 16, hexDigit a.val = hexDigit b.val → a = b := by decide
  exact congrArg Fin.val (this ⟨i, hi⟩ ⟨j, hj⟩ h)

theorem byte_high_lt (v : Byte) : v.val >>> 4 < 16 := by
  have := v.isLt
  rw [Nat.shiftRight_eq_div_pow]
  omega

theorem byte_low_lt (v : Byte) : v.val &&& 0x0f < 16 := by
  have h : (0x0f : Nat) = 2 ^ 4 - 1 := by norm_num
  rw [h, Nat.and_pow_two_sub_one_eq_mod]
  exact Nat.mod_lt _ (by norm_num)

theorem byte_eq_of_nibbles (v w : Byte) (hh : v.val >>> 4 = w.val >>> 4)
    (hl : v.val &&& 0x0f = w.val &&& 0x0f) : v = w := by
  have h : (0x0f : Nat) = 2 ^ 4 - 1 := by norm_num
  rw [h, Nat.and_pow_two_sub_one_eq_mod, Nat.and_pow_two_sub_one_eq_mod] at hl
  rw [Nat.shiftRight_eq_div_pow, Nat.shiftRight_eq_div_pow] at hh
  apply Fin.ext
  omega

theorem encodeToString_length (bs : List Byte) : (encodeToString bs).length = 2 * bs.length := by
  induction bs with
  | nil => rfl
  | cons v rest ih => simp [encodeToString, ih]; omega

theorem encodeToString_mem_hextable (bs : List Byte) :
    ∀ c ∈ encodeToString bs, c ∈ hextable := by
  induction bs with
  | nil => intro c hc; simp [encodeToString] at hc
  | cons v rest ih =>
    intro c hc
    simp only [encodeToString, List.mem_cons] at hc
    rcases hc with hc | hc | hc
    · exact hc ▸ hexDigit_mem_hextable _ (byte_high_lt v)
    · exact hc ▸ hexDigit_mem_hextable _ (byte_low_lt v)
    · exact ih c hc

theorem encodeToString_injective (bs bs' : List Byte)
    (h : encodeToString bs = encodeToString bs') : bs = bs' := by
  induction bs generalizing bs' with
  | nil =>
    cases bs' with
    | nil => rfl
    | cons w rest' => simp [encodeToString] at h
  | cons v rest ih =>
    cases bs' with
    | nil => simp [encodeToString] at h
    | cons w rest' =>
      simp only [encodeToString, List.cons.injEq] at h
      obtain ⟨h1, h2, h3⟩ := h
      have hh := hexDigit_injective _ _ (byte_high_lt v) (byte_high_lt w) h1
      have hl := hexDigit_injective _ _ (byte_low_lt v) (byte_low_lt w) h2
      rw [byte_eq_of_nibbles v w hh hl, ih rest' h3]

/-- A character of `hextable` is neither a dot nor a path separator, is ASCII, is not an uppercase
letter and is left alone by the ASCII lowering. -/
theorem hextable_char (c : Char) (h : c ∈ hextable) :
    c ≠ '.' ∧ c ≠ '/' ∧ c.toNat < 0x80 ∧ c.isUpper = false ∧ asciiToLower c = c := by
  have : ∀ d ∈ hextable,
      d ≠ '.' ∧ d ≠ '/' ∧ d.toNat < 0x80 ∧ d.isUpper = false ∧ asciiToLower d = d := by decide
  exact this c h

/-- The same for the characters of the suffix `.pdf`, the dot apart. -/
theorem pdfSuffix_char (c : Char) (h : c ∈ ".pdf".toList) :
    c.toNat < 0x80 ∧ c.isUpper = false ∧ asciiToLower c = c := by
  have : ∀ d ∈ ".pdf".toList, d.toNat < 0x80 ∧ d.isUpper = false ∧ asciiToLower d = d := by decide
  exact this c h

theorem extLoop_no_dot (rev acc : GoString) (h : ∀ c ∈ rev, c ≠ '.' ∧ c ≠ '/') :
    extLoop rev acc = [] := by
  induction rev generalizing acc with
  | nil => rfl
  | cons c rev ih =>
    have hc := h c (List.mem_cons_self _ _)
    simp only [extLoop, hc.1, hc.2, if_false]
    exact ih _ (fun d hd => h d (List.mem_cons_of_mem _ hd))

/-- The extension test of `urlToFilename` never finds an extension in a hex digest. -/
theorem getFileExtension_generateHash (L : Lib) (u : GoString) :
    getFileExtension (generateHash L u) = [] := by
  unfold getFileExtension
  apply extLoop_no_dot
  intro c hc
  have := hextable_char c (encodeToString_mem_hextable _ c (List.mem_reverse.1 hc))
  exact ⟨this.1, this.2.1⟩

/-- The final lower-casing of `urlToFilename` changes nothing. -/
theorem toLower_hash_pdf (L : Lib) (u : GoString) :
    toLower L (generateHash L u ++ ".pdf".toList) = generateHash L u ++ ".pdf".toList := by
  have hchar : ∀ c ∈ generateHash L u ++ ".pdf".toList, c.toNat < 0x80 ∧ asciiToLower c = c := by
    intro c hc
    rcases List.mem_append.1 hc with h | h
    · have := hextable_char c (encodeToString_mem_hextable _ c h)
      exact ⟨this.2.2.1, this.2.2.2.2⟩
    · have := pdfSuffix_char c h
      exact ⟨this.1, this.2.2⟩
  unfold toLower
  rw [if_pos]
  · conv_rhs => rw [← List.map_id (generateHash L u ++ ".pdf".toList)]
    exact List.map_congr_left (fun c hc => (hchar c hc).2)
  · rw [List.all_eq_true]
    intro c hc
    exact decide_eq_true (hchar c hc).1

theorem urlToFilename_eq (L : Lib) (u : GoString) :
    urlToFilename L u = generateHash L u ++ ".pdf".toList := by
  unfold urlToFilename
  simp only [getFileExtension_generateHash]
  rw [if_pos (by decide)]
  exact toLower_hash_pdf L u

/-- C3: `urlToFilename u` is the hex encoding of the SHA-256 digest of the bytes of `u` followed by
`.pdf`: the extension test finds no extension in the digest, the final lower-casing changes
nothing, the name has 68 characters, ends in `.pdf`, has no uppercase character, and equal URLs
give equal names. -/
theorem urlToFilename_sha256_hex_pdf (L : Lib) (u : GoString) :
    urlToFilename L u = encodeToString (L.sum256 (toBytes u)).bytes ++ ".pdf".toList ∧
    getFileExtension (generateHash L u) = [] ∧
    toLower L (generateHash L u ++ ".pdf".toList) = generateHash L u ++ ".pdf".toList ∧
    (urlToFilename L u).length = 68 ∧
    ".pdf".toList <:+ urlToFilename L u ∧
    (∀ c ∈ urlToFilename L u, c.isUpper = false) ∧
    (∀ u', u' = u → urlToFilename L u' = urlToFilename L u) := by
  refine ⟨urlToFilename_eq L u, getFileExtension_generateHash L u, toLower_hash_pdf L u,
    ?_, ?_, ?_, ?_⟩
  · rw [urlToFilename_eq]
    simp [generateHash, encodeToString_length, (L.sum256 (toBytes u)).size]
  · rw [urlToFilename_eq]
    exact List.suffix_append _ _
  · intro c hc
    rw [urlToFilename_eq] at hc
    rcases List.mem_append.1 hc with h | h
    · exact (hextable_char c (encodeToString_mem_hextable _ c h)).2.2.2.1
    · exact (pdfSuffix_char c h).2.1
  · intro u' h
    rw [h]

/-- C9: two URLs get the same file name exactly when their SHA-256 digests are equal. -/
theorem urlToFilename_eq_iff_digest_eq (L : Lib) (u1 u2 : GoString) :
    urlToFilename L u1 = urlToFilename L u2 ↔ L.sum256 (toBytes u1) = L.sum256 (toBytes u2) := by
  rw [urlToFilename_eq, urlToFilename_eq]
  constructor
  · intro h
    have h' := List.append_cancel_right h
    have hb := encodeToString_injective _ _ h'
    cases h1 : L.sum256 (toBytes u1) with
    | mk b1 s1 =>
      cases h2 : L.sum256 (toBytes u2) with
      | mk b2 s2 =>
        rw [h1, h2] at hb
        simp only at hb
        subst hb
        rfl
  · intro h
    simp [generateHash, h]

/-! ## Proofs: `extractPDFUrls` -/

theorem matchItems_pdfLinkTail (m0 c0 c1 pos : Nat) (s : GoString) (r : Match) :
    matchItems pdfLinkTail m0 c0 c1 s pos = some r ↔
      ∃ post, s = '.' :: 'p' :: 'd' :: 'f' :: '"' :: post ∧ r = ⟨m0, pos + 5, c0, pos + 4⟩ := by
  rcases s with _ | ⟨a1, _ | ⟨a2, _ | ⟨a3, _ | ⟨a4, _ | ⟨a5, post⟩⟩⟩⟩⟩ <;>
    simp [matchItems, pdfLinkTail, CharClass.test]
  have e1 : pos + 1 + 1 + 1 + 1 + 1 = pos + 5 := by omega
  have e2 : pos + 1 + 1 + 1 + 1 = pos + 4 := by omega
  rw [e1, e2]
  constructor
  · rintro ⟨h1, h2, h3, h4, h5, h6⟩
    exact ⟨⟨h1, h2, h3, h4, h5⟩, h6.symm⟩
  · rintro ⟨⟨h1, h2, h3, h4, h5⟩, h6⟩
    exact ⟨h1, h2, h3, h4, h5, h6.symm⟩

/-- A non-empty text without double quote followed by `.pdf"` does not itself start with
`.pdf"`: its fifth character is not a double quote. -/
theorem stem_pdf_ne (stem post post' : GoString) (hne : stem ≠ []) (hq : '"' ∉ stem) :
    stem ++ '.' :: 'p' :: 'd' :: 'f' :: '"' :: post ≠ '.' :: 'p' :: 'd' :: 'f' :: '"' :: post' := by
  rcases stem with _ | ⟨a1, _ | ⟨a2, _ | ⟨a3, _ | ⟨a4, _ | ⟨a5, rest⟩⟩⟩⟩⟩
  · exact absurd rfl hne
  all_goals simp
  intro _ _ _ _ h
  simp [h] at hq

theorem plusLoop_pdfLinkTail (m0 c0 c1 : Nat) (s : GoString) (pos : Nat) (r : Match) :
    plusLoop (.notLit '"') (matchItems pdfLinkTail m0 c0 c1) s pos = some r ↔
      ∃ stem post, stem ≠ [] ∧ '"' ∉ stem ∧ s = stem ++ '.' :: 'p' :: 'd' :: 'f' :: '"' :: post ∧
        r = ⟨m0, pos + stem.length + 5, c0, pos + stem.length + 4⟩ := by
  induction s generalizing pos r with
  | nil =>
    simp only [plusLoop]
    constructor
    · intro h; cases h
    · rintro ⟨stem, post, hne, _, hs, _⟩
      cases stem with
      | nil => exact absurd rfl hne
      | cons a t => simp at hs
  | cons d s ih =>
    by_cases hd : d = '"'
    · subst hd
      simp only [plusLoop, CharClass.test]
      constructor
      · intro h; simp at h
      · rintro ⟨stem, post, hne, hq, hs, _⟩
        cases stem with
        | nil => exact absurd rfl hne
        | cons a t =>
          simp only [List.cons_append, List.cons.injEq] at hs
          exact absurd (hs.1 ▸ List.mem_cons_self _ _) hq
    · have htest : (CharClass.notLit '"').test d = true := by simp [CharClass.test, hd]
      simp only [plusLoop, htest, if_true]
      constructor
      · intro h
        cases hp : plusLoop (.notLit '"') (matchItems pdfLinkTail m0 c0 c1) s (pos + 1) with
        | some r' =>
          rw [hp] at h
          simp only [Option.some.injEq] at h
          subst h
          obtain ⟨stem, post, hne, hq, hs, hr⟩ := (ih (pos + 1) r').1 hp
          refine ⟨d :: stem, post, by simp, ?_, by simp [hs], ?_⟩
          · simp only [List.mem_cons, not_or]
            exact ⟨fun h => hd h.symm, hq⟩
          · rw [hr]; simp only [List.length_cons, Match.mk.injEq, true_and]; omega
        | none =>
          rw [hp] at h
          obtain ⟨post, hs, hr⟩ := (matchItems_pdfLinkTail m0 c0 c1 (pos + 1) s r).1 h
          refine ⟨[d], post, by simp, ?_, by simp [hs], ?_⟩
          · simp only [List.mem_singleton]
            exact fun h => hd h.symm
          · rw [hr]; simp only [List.length_singleton]
      · rintro ⟨stem, post, hne, hq, hs, hr⟩
        cases stem with
        | nil => exact absurd rfl hne
        | cons a t =>
          simp only [List.cons_append, List.cons.injEq] at hs
          obtain ⟨_, hs⟩ := hs
          have hqt : '"' ∉ t := fun h => hq (List.mem_cons_of_mem _ h)
          by_cases ht : t = []
          · subst ht
            simp only [List.nil_append] at hs
            have hnone : plusLoop (.notLit '"') (matchItems pdfLinkTail m0 c0 c1) s (pos + 1)
                = none := by
              cases hp : plusLoop (.notLit '"') (matchItems pdfLinkTail m0 c0 c1) s (pos + 1) with
              | none => rfl
              | some r' =>
                obtain ⟨stem', post', hne', hq', hs', _⟩ := (ih (pos + 1) r').1 hp
                rw [hs] at hs'
                exact absurd hs'.symm (stem_pdf_ne stem' post' post hne' hq')
            rw [hnone]
            refine (matchItems_pdfLinkTail m0 c0 c1 (pos + 1) s r).2 ⟨post, hs, ?_⟩
            rw [hr]; simp only [List.length_singleton]
          · have hp : plusLoop (.notLit '"') (matchItems pdfLinkTail m0 c0 c1) s (pos + 1)
                = some r := by
              refine (ih (pos + 1) r).2 ⟨t, post, ht, hqt, hs, ?_⟩
              rw [hr]; simp only [List.length_cons, Match.mk.injEq, true_and]; omega
            rw [hp]

theorem matchItems_hrefOpen (pos : Nat) (s1 : GoString) :
    matchItems pdfLinkPattern pos 0 0 (hrefOpen ++ s1) pos =
      plusLoop (.notLit '"') (matchItems pdfLinkTail pos (pos + 6) 0) s1 (pos + 6) := by
  rfl

theorem matchItems_some_hrefOpen (pos : Nat) (s : GoString) (r : Match)
    (h : matchItems pdfLinkPattern pos 0 0 s pos = some r) : ∃ s1, s = hrefOpen ++ s1 := by
  rcases s with _ | ⟨a1, _ | ⟨a2, _ | ⟨a3, _ | ⟨a4, _ | ⟨a5, _ | ⟨a6, s1⟩⟩⟩⟩⟩⟩ <;>
    simp [matchItems, pdfLinkPattern, CharClass.test] at h
  obtain ⟨h1, h2, h3, h4, h5, h6, _⟩ := h
  exact ⟨s1, by simp [hrefOpen, h1, h2, h3, h4, h5, h6]⟩

/-- The pattern matches at the start of `s` exactly when `s` starts with a PDF link, and the
positions of the match are those of the link and of its URL. -/
theorem matchItems_pdfLinkPattern (pos : Nat) (s : GoString) (r : Match) :
    matchItems pdfLinkPattern pos 0 0 s pos = some r ↔
      ∃ u, HrefPdfPrefix s u ∧ r = ⟨pos, pos + u.length + 7, pos + 6, pos + 6 + u.length⟩ := by
  constructor
  · intro h
    obtain ⟨s1, rfl⟩ := matchItems_some_hrefOpen pos s r h
    rw [matchItems_hrefOpen, plusLoop_pdfLinkTail] at h
    obtain ⟨stem, post, hne, hq, hs, hr⟩ := h
    refine ⟨stem ++ pdfSuffix, ⟨stem, post, hne, rfl, ?_, ?_⟩, ?_⟩
    · simp only [pdfSuffix, List.mem_append, not_or]
      exact ⟨hq, by decide⟩
    · simp [hs, pdfSuffix]
    · rw [hr]
      simp only [pdfSuffix, List.length_append, Match.mk.injEq, true_and]
      simp only [String.toList, List.length_cons, List.length_nil]
      omega
  · rintro ⟨u, ⟨stem, post, hne, hu, hq, hs⟩, hr⟩
    subst hs
    rw [List.append_assoc, matchItems_hrefOpen, plusLoop_pdfLinkTail]
    refine ⟨stem, post, hne, ?_, ?_, ?_⟩
    · intro h
      exact hq (hu ▸ List.mem_append_left _ h)
    · simp [hu, pdfSuffix]
    · rw [hr, hu]
      simp only [pdfSuffix, List.length_append, Match.mk.injEq, true_and]
      simp only [String.toList, List.length_cons, List.length_nil]
      omega

/-- Two texts cut at their first occurrence of `a` are equal piecewise. -/
theorem split_first {α : Type} (a : α) (u u' post post' : List α) (hu : a ∉ u) (hu' : a ∉ u')
    (h : u ++ a :: post = u' ++ a :: post') : u = u' ∧ post = post' := by
  induction u generalizing u' with
  | nil =>
    cases u' with
    | nil => simpa using h
    | cons b t =>
      simp only [List.nil_append, List.cons_append, List.cons.injEq] at h
      exact absurd (h.1 ▸ List.mem_cons_self _ _) hu'
  | cons c t ih =>
    cases u' with
    | nil =>
      simp only [List.nil_append, List.cons_append, List.cons.injEq] at h
      exact absurd (h.1 ▸ List.mem_cons_self _ _) hu
    | cons b t' =>
      simp only [List.cons_append, List.cons.injEq] at h
      obtain ⟨h1, h2⟩ := ih t' (fun x => hu (List.mem_cons_of_mem _ x))
        (fun x => hu' (List.mem_cons_of_mem _ x)) h.2
      exact ⟨by rw [h.1, h1], h2⟩

theorem hrefPdfPrefix_unique (s u u' : GoString) (h : HrefPdfPrefix s u)
    (h' : HrefPdfPrefix s u') : u = u' := by
  obtain ⟨_, post, _, _, hq, hs⟩ := h
  obtain ⟨_, post', _, _, hq', hs'⟩ := h'
  rw [hs, List.append_assoc, List.append_assoc] at hs'
  exact (split_first '"' u u' post post' hq hq' (List.append_cancel_left hs')).1

theorem hrefPdfPrefix_length (s u : GoString) (h : HrefPdfPrefix s u) :
    u.length + 7 ≤ s.length := by
  obtain ⟨_, post, _, _, _, hs⟩ := h
  rw [hs]
  simp only [hrefOpen, String.toList, List.length_append, List.length_cons, List.length_nil]
  omega

/-- Links do not overlap: inside a link no other link starts. -/
theorem hrefPdfPrefix_no_overlap (s u u' : GoString) (k : Nat) (h : HrefPdfPrefix s u)
    (hk0 : 0 < k) (hk : k < u.length + 7) : ¬ HrefPdfPrefix (s.drop k) u' := by
  obtain ⟨stem, post, _, hu, hq, hs⟩ := h
  rintro ⟨_, post', _, _, hq', hs'⟩
  by_cases hk6 : k < 6
  · rw [hs] at hs'
    interval_cases k <;> simp [hrefOpen] at hs'
  · obtain ⟨j, rfl⟩ : ∃ j, k = 6 + j := ⟨k - 6, by omega⟩
    have hj : j ≤ u.length := by omega
    have hdrop : s.drop (6 + j) = u.drop j ++ '"' :: post := by
      rw [hs, List.append_assoc, ← List.drop_drop]
      have : (hrefOpen ++ (u ++ '"' :: post)).drop 6 = u ++ '"' :: post := rfl
      rw [this, List.drop_append_of_le_length hj]
    rw [hdrop] at hs'
    have hqd : '"' ∉ u.drop j := fun x => hq (List.mem_of_mem_drop x)
    have hsplit : u.drop j = "href=".toList := by
      have h5 : hrefOpen ++ u' ++ '"' :: post' = "href=".toList ++ '"' :: (u' ++ '"' :: post') := by
        simp [hrefOpen]
      rw [h5] at hs'
      exact (split_first '"' _ _ _ _ hqd (by decide) hs').1
    have hsuf1 : "href=".toList <:+ u := hsplit ▸ List.drop_suffix j u
    have hsuf2 : pdfSuffix <:+ u := hu ▸ List.suffix_append _ _
    have := List.suffix_of_suffix_length_le hsuf2 hsuf1 (by decide)
    revert this
    decide

/-- What `search` returns on the text `s` that starts at position `pos`: nothing when no link
starts anywhere in `s`, and otherwise the positions of the first link of `s`. -/
theorem search_pdfLinkPattern (s : GoString) (pos : Nat) :
    (search pdfLinkPattern s pos = none ∧ ∀ k u, ¬ HrefPdfPrefix (s.drop k) u) ∨
    ∃ k u, k ≤ s.length ∧ HrefPdfPrefix (s.drop k) u ∧
      (∀ j u', j < k → ¬ HrefPdfPrefix (s.drop j) u') ∧
      search pdfLinkPattern s pos
        = some ⟨pos + k, pos + k + u.length + 7, pos + k + 6, pos + k + 6 + u.length⟩ := by
  induction s generalizing pos with
  | nil =>
    left
    have hno : ∀ u, ¬ HrefPdfPrefix [] u := by
      rintro u ⟨_, _, _, _, _, hs⟩
      simp [hrefOpen] at hs
    refine ⟨?_, fun k u => by simpa using hno u⟩
    cases hm : search pdfLinkPattern [] pos with
    | none => rfl
    | some r =>
      obtain ⟨u, hu, _⟩ := (matchItems_pdfLinkPattern pos [] r).1 hm
      exact absurd hu (hno u)
  | cons c s ih =>
    cases hm : matchItems pdfLinkPattern pos 0 0 (c :: s) pos with
    | some r =>
      right
      obtain ⟨u, hu, hr⟩ := (matchItems_pdfLinkPattern pos (c :: s) r).1 hm
      refine ⟨0, u, Nat.zero_le _, hu, fun j _ hj => absurd hj (Nat.not_lt_zero j), ?_⟩
      simp only [search, hm, hr, Nat.add_zero]
    | none =>
      have h0 : ∀ u, ¬ HrefPdfPrefix (c :: s) u := by
        intro u hu
        have := (matchItems_pdfLinkPattern pos (c :: s) _).2 ⟨u, hu, rfl⟩
        rw [hm] at this
        cases this
      have hsearch : search pdfLinkPattern (c :: s) pos = search pdfLinkPattern s (pos + 1) := by
        simp only [search, hm]
      rcases ih (pos + 1) with ⟨hnone, hall⟩ | ⟨k, u, hk, hu, hfirst, hres⟩
      · left
        refine ⟨hsearch ▸ hnone, ?_⟩
        intro k u
        cases k with
        | zero => exact h0 u
        | succ k => exact hall k u
      · right
        refine ⟨k + 1, u, by simpa using hk, hu, ?_, ?_⟩
        · intro j u' hj
          cases j with
          | zero => exact h0 u'
          | succ j => exact hfirst j u' (by omega)
        · rw [hsearch, hres]
          simp only [Match.mk.injEq, Option.some.injEq]
          omega

/-- The positions `regexp` reports for the link of URL `u` at offset `i`. -/
theorem hrefPdfAt_drop (input : GoString) (pos k : Nat) (u : GoString) (hpos : pos ≤ input.length)
    (hk : k ≤ (input.drop pos).length) (h : HrefPdfPrefix ((input.drop pos).drop k) u) :
    HrefPdfAt input (pos + k) u := by
  rw [List.length_drop] at hk
  refine ⟨by omega, ?_⟩
  rwa [List.drop_drop] at h

/-- The loop of `allMatches` on the pattern of `extractPDFUrls`, run from position `pos` with fuel
enough to reach the end of the input: it delivers the links of the input that start at `pos` or
later, each once, by increasing offset. -/
theorem allMatchesLoop_pdfLinkPattern (input : GoString) :
    ∀ (fuel pos : Nat) (prev : Option Nat), pos ≤ input.length → input.length + 1 ≤ fuel + pos →
      ∃ offs : List Nat, offs.Pairwise (· < ·) ∧ (∀ i ∈ offs, pos ≤ i) ∧
        List.Forall₂
          (fun i m => ∃ u, HrefPdfAt input i u ∧
            m = (⟨i, i + u.length + 7, i + 6, i + 6 + u.length⟩ : Match))
          offs (allMatchesLoop pdfLinkPattern input fuel pos prev) ∧
        ∀ i u, pos ≤ i → HrefPdfAt input i u → i ∈ offs := by
  intro fuel
  induction fuel with
  | zero => intro pos _ hpos hfuel; omega
  | succ fuel ih =>
    intro pos prev hpos hfuel
    rcases search_pdfLinkPattern (input.drop pos) pos with
      ⟨hnone, hall⟩ | ⟨k, u, hk, hu, hfirst, hres⟩
    · refine ⟨[], List.Pairwise.nil, by simp, ?_, ?_⟩
      · simp only [allMatchesLoop, hpos, if_true, hnone]
        exact List.Forall₂.nil
      · rintro i u' hi ⟨_, hpre⟩
        have hd : (input.drop pos).drop (i - pos) = input.drop i := by
          rw [List.drop_drop]; congr 1; omega
        exact absurd (hd ▸ hpre) (hall (i - pos) u')
    · have hat : HrefPdfAt input (pos + k) u := hrefPdfAt_drop input pos k u hpos hk hu
      have hlen := hrefPdfPrefix_length _ _ hat.2
      rw [List.length_drop] at hlen
      have hpos' : pos + k + u.length + 7 ≤ input.length := by
        have := hat.1
        omega
      obtain ⟨offs, hsorted, hlow, hall, hcomplete⟩ :=
        ih (pos + k + u.length + 7) (some (pos + k + u.length + 7)) hpos' (by omega)
      refine ⟨(pos + k) :: offs, ?_, ?_, ?_, ?_⟩
      · refine List.pairwise_cons.2 ⟨fun i hi => ?_, hsorted⟩
        have := hlow i hi
        omega
      · intro i hi
        rcases List.mem_cons.1 hi with h | h
        · omega
        · have := hlow i h
          omega
      · have hne : ¬ (pos + k + u.length + 7 = pos) := by omega
        simp only [allMatchesLoop, hpos, if_true, hres, hne, if_false]
        exact List.Forall₂.cons ⟨u, hat, rfl⟩ hall
      · intro i u' hi hat'
        by_cases h1 : i < pos + k
        · have hd : (input.drop pos).drop (i - pos) = input.drop i := by
            rw [List.drop_drop]; congr 1; omega
          exact absurd (hd ▸ hat'.2) (hfirst (i - pos) u' (by omega))
        · by_cases h2 : i = pos + k
          · exact h2 ▸ List.mem_cons_self _ _
          · by_cases h3 : i < pos + k + u.length + 7
            · have hd : (input.drop (pos + k)).drop (i - (pos + k)) = input.drop i := by
                rw [List.drop_drop]; congr 1; omega
              exact absurd (hd ▸ hat'.2)
                (hrefPdfPrefix_no_overlap _ u u' (i - (pos + k)) hat.2 (by omega) (by omega))
            · exact List.mem_cons_of_mem _ (hcomplete i u' (by omega) hat')

/-- The text of group 1 of the match of a link is the URL of the link. -/
theorem slice_hrefPdfAt (input : GoString) (i : Nat) (u : GoString) (h : HrefPdfAt input i u) :
    slice input (i + 6) (i + 6 + u.length) = u := by
  obtain ⟨_, _, post, _, _, _, hs⟩ := h
  have h6 : input.drop (i + 6) = u ++ '"' :: post := by
    rw [← List.drop_drop, hs, List.append_assoc]
    rfl
  unfold slice
  rw [h6, Nat.add_sub_cancel_left, List.take_left']
  rfl

/-- The loop of `extractPDFUrls` over the matches keeps group 1 of every match. -/
theorem extractPDFUrls_eq_map (input : GoString) :
    extractPDFUrls input
      = (allMatches pdfLinkPattern input).map fun m => slice input m.c0 m.c1 := by
  have hfold : ∀ (ms : List Match) (acc : List GoString),
      (ms.map fun m => [slice input m.m0 m.m1, slice input m.c0 m.c1]).foldl
        (fun pdfUrls m => if m.length > 1 then pdfUrls ++ [m.getD 1 []] else pdfUrls) acc
        = acc ++ ms.map fun m => slice input m.c0 m.c1 := by
    intro ms
    induction ms with
    | nil => intro acc; simp
    | cons m ms ih =>
      intro acc
      simp only [List.map_cons, List.foldl_cons]
      rw [if_pos (by simp), ih]
      simp
  simpa [extractPDFUrls, findAllStringSubmatch] using hfold (allMatches pdfLinkPattern input) []

/-- The result of `extractPDFUrls` is the list of the URLs of the links of the input, by
increasing offset. -/
theorem extractPDFUrls_links (input : GoString) :
    ∃ offs : List Nat, offs.Pairwise (· < ·) ∧
      List.Forall₂ (HrefPdfAt input) offs (extractPDFUrls input) ∧
      ∀ i u, HrefPdfAt input i u → i ∈ offs := by
  obtain ⟨offs, hsorted, _, hall, hcomplete⟩ :=
    allMatchesLoop_pdfLinkPattern input (input.length + 1) 0 none (Nat.zero_le _) (by omega)
  refine ⟨offs, hsorted, ?_, fun i u h => hcomplete i u (Nat.zero_le _) h⟩
  rw [extractPDFUrls_eq_map, List.forall₂_map_right_iff]
  refine hall.imp ?_
  rintro i m ⟨u, hat, hm⟩
  rw [hm]
  simp only
  rw [slice_hrefPdfAt input i u hat]
  exact hat

theorem forall₂_mem_right {α β : Type} {R : α → β → Prop} {l₁ : List α} {l₂ : List β}
    (h : List.Forall₂ R l₁ l₂) : ∀ b ∈ l₂, ∃ a ∈ l₁, R a b := by
  induction h with
  | nil => intro b hb; cases hb
  | cons hab _ ih =>
    intro b hb
    rcases List.mem_cons.1 hb with rfl | hb
    · exact ⟨_, List.mem_cons_self _ _, hab⟩
    · obtain ⟨a, ha, hr⟩ := ih b hb
      exact ⟨a, List.mem_cons_of_mem _ ha, hr⟩

theorem forall₂_mem_left {α β : Type} {R : α → β → Prop} {l₁ : List α} {l₂ : List β}
    (h : List.Forall₂ R l₁ l₂) : ∀ a ∈ l₁, ∃ b ∈ l₂, R a b := by
  induction h with
  | nil => intro a ha; cases ha
  | cons hab _ ih =>
    intro a ha
    rcases List.mem_cons.1 ha with rfl | ha
    · exact ⟨_, List.mem_cons_self _ _, hab⟩
    · obtain ⟨b, hb, hr⟩ := ih a ha
      exact ⟨b, List.mem_cons_of_mem _ hb, hr⟩

/-- C2, as stated, fails: the text `href=".pdf"` wraps `.pdf`, a string without double quote that
ends in `.pdf`, as `href="..."`, and `extractPDFUrls` returns nothing for it: the `+` of the
pattern asks for a character before `.pdf`. -/
theorem extractPDFUrls_bare_suffix_missed :
    '"' ∉ ".pdf".toList ∧ ".pdf".toList <:+ ".pdf".toList ∧
    "href=\".pdf\"".toList = "href=\"".toList ++ ".pdf".toList ++ ['"'] ∧
    extractPDFUrls "href=\".pdf\"".toList = [] := by
  refine ⟨by decide, List.suffix_refl _, by decide, by decide⟩

/-- C2 (amended): `extractPDFUrls` returns, by increasing offset, the URL of every link of the
input and nothing else, a link being `href="`, one or more characters other than a double quote,
`.pdf` and `"`. Every returned string has no double quote, ends in `.pdf`, is longer than `.pdf`
and stands in the input between `href="` and `"`; every such text of the input whose URL has a
character before `.pdf` is returned; on the page of Scenario 1 the result is
`[a.pdf, a.pdf, b.pdf]`. -/
theorem extractPDFUrls_returns_links (input : GoString) :
    (∃ offs : List Nat, offs.Pairwise (· < ·) ∧
      List.Forall₂ (HrefPdfAt input) offs (extractPDFUrls input) ∧
      ∀ i u, HrefPdfAt input i u → i ∈ offs) ∧
    (∀ u ∈ extractPDFUrls input,
      '"' ∉ u ∧ pdfSuffix <:+ u ∧ pdfSuffix.length < u.length ∧
        (hrefOpen ++ u ++ ['"']) <:+: input) ∧
    (∀ pre stem post, stem ≠ [] → '"' ∉ stem →
      input = pre ++ (hrefOpen ++ (stem ++ pdfSuffix) ++ '"' :: post) →
      stem ++ pdfSuffix ∈ extractPDFUrls input) ∧
    extractPDFUrls scenario1Html
      = ["https://x.com/a.pdf".toList, "https://x.com/a.pdf".toList,
         "https://x.com/b.pdf".toList] := by
  obtain ⟨offs, hsorted, hall, hcomplete⟩ := extractPDFUrls_links input
  refine ⟨⟨offs, hsorted, hall, hcomplete⟩, ?_, ?_, by decide⟩
  · intro u hu
    obtain ⟨i, _, _, stem, post, hne, hstem, hq, hs⟩ := forall₂_mem_right hall u hu
    refine ⟨hq, hstem ▸ List.suffix_append _ _, ?_, ?_⟩
    · rw [hstem, List.length_append]
      exact Nat.lt_add_of_pos_left (List.length_pos.2 hne)
    refine ⟨input.take i, post, ?_⟩
    have := List.take_append_drop i input
    rw [hs] at this
    simpa [List.append_assoc] using this
  · intro pre stem post hne hq hin
    have hat : HrefPdfAt input pre.length (stem ++ pdfSuffix) := by
      refine ⟨by simp [hin], stem, post, hne, rfl, ?_, ?_⟩
      · simp only [pdfSuffix, List.mem_append, not_or]
        exact ⟨hq, by decide⟩
      · rw [hin, List.drop_left]
    obtain ⟨u, hu, hat'⟩ := forall₂_mem_left hall _ (hcomplete _ _ hat)
    rw [hrefPdfPrefix_unique _ _ _ hat.2 hat'.2]
    exact hu

/-! ## Proofs: `downloadPDF` -/

/-- The path `downloadPDF` computes is the artifact path. -/
theorem downloadPDF_filePath (L : Lib) (u d : GoString) :
    L.join d (toLower L (urlToFilename L u)) = artifactPath L d u := by
  rw [urlToFilename_eq, toLower_hash_pdf]
  rfl

/-- With a file at the artifact path `downloadPDF` logs one line and returns: no request, no
change of the filesystem. -/
theorem downloadPDF_of_exists (L : Lib) (env : Env) (u d : GoString) (w : World)
    (h : fileExists w (artifactPath L d u) = true) :
    downloadPDF L env u d w
      = .returned { w with log := w.log ++ [.skipExisting (artifactPath L d u)] } := by
  simp only [downloadPDF, downloadPDF_filePath, h, if_true]

/-- Without a file at the artifact path `downloadPDF` issues the request, and returns with
nothing else done unless the response is a PDF. -/
theorem downloadPDF_of_not_pdf (L : Lib) (env : Env) (u d : GoString) (w : World)
    (hfile : fileExists w (artifactPath L d u) = false)
    (h : ∀ resp, env.get u = some resp → ¬ resp.IsPdf) :
    downloadPDF L env u d w = .returned { w with requests := w.requests ++ [u] } := by
  simp only [downloadPDF, downloadPDF_filePath, hfile, Bool.false_eq_true, if_false]
  cases hget : env.get u with
  | none => rfl
  | some resp =>
    have hno := h resp hget
    simp only [Response.IsPdf, not_and_or] at hno
    by_cases h1 : resp.statusCode = 200
    · cases h2 : stringsContains resp.contentType "application/pdf".toList with
      | false =>
        simp only [h1, h2, ne_eq, not_true_eq_false, if_false, Bool.not_false, if_true]
      | true =>
        cases h3 : resp.readFails with
        | true =>
          simp only [h1, h2, h3, ne_eq, not_true_eq_false, if_false, Bool.not_true,
            Bool.false_eq_true, if_true]
        | false =>
          have h4 : resp.body = [] := by
            rcases hno with h | h | h | h
            · exact absurd h1 h
            · exact absurd h2 h
            · exact absurd h3 h
            · exact not_not.1 h
          simp only [h1, h2, h3, h4, ne_eq, not_true_eq_false, if_false, Bool.not_true,
            Bool.false_eq_true, List.length_nil, if_true]
    · simp only [h1, ne_eq, not_false_eq_true, if_true]

/-- With a PDF response and no file at the artifact path, what `downloadPDF` leaves is decided by
`os.Create` and the write. -/
theorem downloadPDF_of_pdf (L : Lib) (env : Env) (u d : GoString) (w : World) (resp : Response)
    (hfile : fileExists w (artifactPath L d u) = false)
    (hget : env.get u = some resp) (hpdf : resp.IsPdf) :
    downloadPDF L env u d w =
      match osCreate env (artifactPath L d u) { w with requests := w.requests ++ [u] } with
      | none => .returned { w with requests := w.requests ++ [u] }
      | some w' => .returned (fileWrite env (artifactPath L d u) resp.body w').2 := by
  obtain ⟨h1, h2, h3, h4⟩ := hpdf
  have h5 : resp.body.length ≠ 0 := fun h => h4 (List.length_eq_zero.1 h)
  simp only [downloadPDF, downloadPDF_filePath, hfile, hget, h1, h2, h3, h5]
  simp only [Bool.false_eq_true, if_false, ne_eq, not_true_eq_false, Bool.not_true]
  cases osCreate env (artifactPath L d u) { w with requests := w.requests ++ [u] } with
  | none => rfl
  | some w' =>
    simp only
    cases hw : fileWrite env (artifactPath L d u) resp.body w' with
    | mk ok w'' => cases ok <;> rfl

theorem fs_put_same (fs : FS) (path : GoString) (node : Node) : fs.put path node path = some node := by
  simp [FS.put]

theorem fs_put_other (fs : FS) (path p : GoString) (node : Node) (h : p ≠ path) :
    fs.put path node p = fs p := by
  simp [FS.put, h]

/-- A successful `os.Create` followed by a write of `data`: the file holds what was written. -/
theorem osCreate_fileWrite (env : Env) (path data : GoString) (w : World)
    (hdir : w.fs path ≠ some .dir) (hcreate : env.createFails path = false) :
    ∃ w', osCreate env path w = some w' ∧
      (fileWrite env path data w').2.fs path
        = some (.file (match env.writeFails path with
            | none => data
            | some n => data.take n)) ∧
      (∀ p, p ≠ path → (fileWrite env path data w').2.fs p = w.fs p) ∧
      (fileWrite env path data w').2.requests = w.requests ∧
      (fileWrite env path data w').2.log = w.log := by
  refine ⟨{ w with fs := w.fs.put path (.file []) }, ?_, ?_, ?_, ?_, ?_⟩
  · simp [osCreate, hdir, hcreate]
  · cases hw : env.writeFails path <;> simp [fileWrite, hw, contentAt, fs_put_same]
  · intro p hp
    cases hw : env.writeFails path <;> simp [fileWrite, hw, fs_put_other _ _ _ _ hp]
  · cases hw : env.writeFails path <;> simp [fileWrite, hw]
  · cases hw : env.writeFails path <;> simp [fileWrite, hw]

theorem fileExists_false_of_none (w : World) (path : GoString) (h : w.fs path = none) :
    fileExists w path = false := by
  simp [fileExists, h]

/-- The response of Scenario 2 is one `downloadPDF` accepts. -/
theorem pdfResponse_isPdf : pdfResponse.IsPdf :=
  ⟨rfl, by decide, rfl, by decide⟩

/-- C4: when the request errors, the status is not 200, the `Content-Type` does not contain
`application/pdf`, the body is empty or reading it fails, `downloadPDF` returns (the process does
not exit) and leaves the filesystem as it was. -/
theorem downloadPDF_no_artifact_without_pdf (L : Lib) (env : Env) (u d : GoString) (w : World)
    (h : env.get u = none ∨ ∃ resp, env.get u = some resp ∧
      (resp.statusCode ≠ 200 ∨ stringsContains resp.contentType "application/pdf".toList = false ∨
        resp.body = [] ∨ resp.readFails = true)) :
    ∃ w', downloadPDF L env u d w = .returned w' ∧ w'.fs = w.fs := by
  cases hfile : fileExists w (artifactPath L d u) with
  | true => exact ⟨_, downloadPDF_of_exists L env u d w hfile, rfl⟩
  | false =>
    refine ⟨_, downloadPDF_of_not_pdf L env u d w hfile ?_, rfl⟩
    rintro resp hget ⟨h1, h2, h3, h4⟩
    rcases h with h | ⟨resp', hget', h⟩
    · rw [h] at hget; cases hget
    · rw [hget] at hget'
      cases hget'
      rcases h with h | h | h | h
      · exact h h1
      · rw [h2] at h; cases h
      · exact h4 h
      · rw [h3] at h; cases h

/-- Scenarios 3 and 4 as instances of C4: a GET answered with status 404, and one answered with
status 200 and `Content-Type: text/html`, leave the empty filesystem empty, and `downloadPDF`
returns. -/
theorem downloadPDF_no_artifact_without_pdf_witness :
    (notFoundResponse.statusCode ≠ 200 ∧
      ∃ w', downloadPDF exampleLib (exampleEnv (some notFoundResponse) false none) exampleURL
        outputDir emptyWorld = .returned w' ∧ w'.fs = emptyWorld.fs) ∧
    (stringsContains htmlResponse.contentType "application/pdf".toList = false ∧
      ∃ w', downloadPDF exampleLib (exampleEnv (some htmlResponse) false none) exampleURL
        outputDir emptyWorld = .returned w' ∧ w'.fs = emptyWorld.fs) :=
  ⟨⟨by decide,
    downloadPDF_no_artifact_without_pdf exampleLib (exampleEnv (some notFoundResponse) false none)
      exampleURL outputDir emptyWorld (Or.inr ⟨notFoundResponse, rfl, Or.inl (by decide)⟩)⟩,
   ⟨by decide,
    downloadPDF_no_artifact_without_pdf exampleLib (exampleEnv (some htmlResponse) false none)
      exampleURL outputDir emptyWorld
      (Or.inr ⟨htmlResponse, rfl, Or.inr (Or.inl (by decide))⟩)⟩⟩

/-- C5: with nothing at the artifact path, a response of status 200 whose `Content-Type` contains
`application/pdf` and whose body is not empty, and `os.Create` and the write succeeding,
`downloadPDF` leaves a file with the whole body at the artifact path, the output directory joined
with `<sha256-hex(url)>.pdf`, and every other path as it was. -/
theorem downloadPDF_writes_one_file (L : Lib) (env : Env) (u d : GoString) (w : World)
    (resp : Response) (hnone : w.fs (artifactPath L d u) = none)
    (hget : env.get u = some resp) (hpdf : resp.IsPdf)
    (hcreate : env.createFails (artifactPath L d u) = false)
    (hwrite : env.writeFails (artifactPath L d u) = none) :
    ∃ w', downloadPDF L env u d w = .returned w' ∧
      w'.fs (L.join d (encodeToString (L.sum256 (toBytes u)).bytes ++ ".pdf".toList))
        = some (.file resp.body) ∧
      ∀ p, p ≠ L.join d (encodeToString (L.sum256 (toBytes u)).bytes ++ ".pdf".toList) →
        w'.fs p = w.fs p := by
  have hdir : w.fs (artifactPath L d u) ≠ some .dir := by rw [hnone]; simp
  obtain ⟨w1, hc, hfile, hframe, _, _⟩ := osCreate_fileWrite env (artifactPath L d u) resp.body
    { w with requests := w.requests ++ [u] } hdir hcreate
  refine ⟨(fileWrite env (artifactPath L d u) resp.body w1).2, ?_, ?_, hframe⟩
  · rw [downloadPDF_of_pdf L env u d w resp (fileExists_false_of_none w _ hnone) hget hpdf, hc]
  · rw [hwrite] at hfile
    exact hfile

/-- Scenario 2 as an instance of C5: from the empty world, a PDF response leaves one file, with
the body of the response, at the artifact path. -/
theorem downloadPDF_writes_one_file_witness :
    emptyWorld.fs (artifactPath exampleLib outputDir exampleURL) = none ∧
    (exampleEnv (some pdfResponse) false none).get exampleURL = some pdfResponse ∧
    pdfResponse.IsPdf ∧
    (exampleEnv (some pdfResponse) false none).createFails
      (artifactPath exampleLib outputDir exampleURL) = false ∧
    (exampleEnv (some pdfResponse) false none).writeFails
      (artifactPath exampleLib outputDir exampleURL) = none ∧
    ∃ w', downloadPDF exampleLib (exampleEnv (some pdfResponse) false none) exampleURL outputDir
        emptyWorld = .returned w' ∧
      w'.fs (exampleLib.join outputDir
          (encodeToString (exampleLib.sum256 (toBytes exampleURL)).bytes ++ ".pdf".toList))
        = some (.file pdfResponse.body) ∧
      ∀ p, p ≠ exampleLib.join outputDir
          (encodeToString (exampleLib.sum256 (toBytes exampleURL)).bytes ++ ".pdf".toList) →
        w'.fs p = emptyWorld.fs p :=
  ⟨rfl, rfl, pdfResponse_isPdf, rfl, rfl,
    downloadPDF_writes_one_file exampleLib (exampleEnv (some pdfResponse) false none) exampleURL
      outputDir emptyWorld pdfResponse rfl rfl pdfResponse_isPdf rfl rfl⟩

/-- C6, as stated, fails: in a world that holds only the directory `PDFs/`, with every GET
answered 404, two runs of `downloadPDF` for the same URL and directory both return, the second
run issues the request again (two requests in all), and no file is at the artifact path. -/
theorem downloadPDF_twice_not_found_two_requests :
    (exampleEnv (some notFoundResponse) false none).get exampleURL = some notFoundResponse ∧
    notFoundResponse.statusCode = 404 ∧
    downloadPDF exampleLib (exampleEnv (some notFoundResponse) false none) exampleURL outputDir
        outputDirWorld
      = .returned { outputDirWorld with requests := [exampleURL] } ∧
    downloadPDF exampleLib (exampleEnv (some notFoundResponse) false none) exampleURL outputDir
        { outputDirWorld with requests := [exampleURL] }
      = .returned { outputDirWorld with requests := [exampleURL, exampleURL] } ∧
    fileExists { outputDirWorld with requests := [exampleURL, exampleURL] }
      (artifactPath exampleLib outputDir exampleURL) = false := by
  have hnot : ∀ resp, (exampleEnv (some notFoundResponse) false none).get exampleURL = some resp →
      ¬ resp.IsPdf := by
    intro resp hget hpdf
    have h : resp = notFoundResponse := (Option.some.inj hget).symm
    rw [h] at hpdf
    exact absurd hpdf.1 (by decide)
  have hfile : ∀ reqs : List GoString,
      fileExists { outputDirWorld with requests := reqs }
        (artifactPath exampleLib outputDir exampleURL) = false := by
    intro reqs
    have hfs : outputDirWorld.fs (artifactPath exampleLib outputDir exampleURL) = none := by
      decide
    exact fileExists_false_of_none _ _ hfs
  refine ⟨rfl, rfl, ?_, ?_, hfile _⟩
  · exact downloadPDF_of_not_pdf exampleLib _ exampleURL outputDir outputDirWorld (hfile _) hnot
  · exact downloadPDF_of_not_pdf exampleLib _ exampleURL outputDir
      { outputDirWorld with requests := [exampleURL] } (hfile _) hnot

/-- C6 (amended): when the first run of `downloadPDF` writes the artifact (nothing at the artifact
path, a response of status 200 whose `Content-Type` contains `application/pdf` and whose body is
not empty, `os.Create` and the write succeeding), a second run for the same URL and directory,
whatever the outside world then answers, finds the file, logs the skip, issues no request and
leaves the filesystem as the first run left it: the artifact with the body at the artifact path
and every other path as before the first run. -/
theorem downloadPDF_twice_one_artifact (L : Lib) (env1 env2 : Env) (u d : GoString) (w : World)
    (resp : Response) (hnone : w.fs (artifactPath L d u) = none)
    (hget : env1.get u = some resp) (hpdf : resp.IsPdf)
    (hcreate : env1.createFails (artifactPath L d u) = false)
    (hwrite : env1.writeFails (artifactPath L d u) = none) :
    ∃ w1 w2, downloadPDF L env1 u d w = .returned w1 ∧ downloadPDF L env2 u d w1 = .returned w2 ∧
      w1.requests = w.requests ++ [u] ∧ w2.requests = w1.requests ∧
      fileExists w1 (artifactPath L d u) = true ∧
      w2.log = w1.log ++ [.skipExisting (artifactPath L d u)] ∧
      w2.fs = w1.fs ∧
      w2.fs (artifactPath L d u) = some (.file resp.body) ∧
      ∀ p, p ≠ artifactPath L d u → w2.fs p = w.fs p := by
  have hdir : w.fs (artifactPath L d u) ≠ some .dir := by rw [hnone]; simp
  obtain ⟨w0, hc, hfile, hframe, hreq, _⟩ := osCreate_fileWrite env1 (artifactPath L d u)
    resp.body { w with requests := w.requests ++ [u] } hdir hcreate
  rw [hwrite] at hfile
  have hrun1 : downloadPDF L env1 u d w
      = .returned (fileWrite env1 (artifactPath L d u) resp.body w0).2 := by
    rw [downloadPDF_of_pdf L env1 u d w resp (fileExists_false_of_none w _ hnone) hget hpdf, hc]
  have hex : fileExists (fileWrite env1 (artifactPath L d u) resp.body w0).2 (artifactPath L d u)
      = true := by
    simp [fileExists, hfile]
  exact ⟨_, _, hrun1, downloadPDF_of_exists L env2 u d _ hex, hreq, rfl, hex, rfl, rfl, hfile,
    hframe⟩

/-- An instance of C6 (amended): from the empty world, a first run that gets a PDF and a second run that
would get a 404. -/
theorem downloadPDF_twice_one_artifact_witness :
    emptyWorld.fs (artifactPath exampleLib outputDir exampleURL) = none ∧
    (exampleEnv (some pdfResponse) false none).get exampleURL = some pdfResponse ∧
    pdfResponse.IsPdf ∧
    (exampleEnv (some pdfResponse) false none).createFails
      (artifactPath exampleLib outputDir exampleURL) = false ∧
    (exampleEnv (some pdfResponse) false none).writeFails
      (artifactPath exampleLib outputDir exampleURL) = none ∧
    ∃ w1 w2, downloadPDF exampleLib (exampleEnv (some pdfResponse) false none) exampleURL
        outputDir emptyWorld = .returned w1 ∧
      downloadPDF exampleLib (exampleEnv (some notFoundResponse) false none) exampleURL
        outputDir w1 = .returned w2 ∧
      w1.requests = emptyWorld.requests ++ [exampleURL] ∧ w2.requests = w1.requests ∧
      fileExists w1 (artifactPath exampleLib outputDir exampleURL) = true ∧
      w2.log = w1.log ++ [.skipExisting (artifactPath exampleLib outputDir exampleURL)] ∧
      w2.fs = w1.fs ∧
      w2.fs (artifactPath exampleLib outputDir exampleURL) = some (.file pdfResponse.body) ∧
      ∀ p, p ≠ artifactPath exampleLib outputDir exampleURL → w2.fs p = emptyWorld.fs p :=
  ⟨rfl, rfl, pdfResponse_isPdf, rfl, rfl,
    downloadPDF_twice_one_artifact exampleLib (exampleEnv (some pdfResponse) false none)
      (exampleEnv (some notFoundResponse) false none) exampleURL outputDir emptyWorld pdfResponse
      rfl rfl pdfResponse_isPdf rfl rfl⟩

/-- C8, as stated, fails: from the empty world, with a PDF response, `os.Create` succeeding and
the write failing after 2 bytes, `downloadPDF` returns with a file at the artifact path, where
there was none, that holds the first 2 bytes of the body. -/
theorem downloadPDF_failed_write_leaves_file :
    emptyWorld.fs (artifactPath exampleLib outputDir exampleURL) = none ∧
    (exampleEnv (some pdfResponse) false (some 2)).writeFails
        (artifactPath exampleLib outputDir exampleURL) = some 2 ∧
    (downloadPDF exampleLib (exampleEnv (some pdfResponse) false (some 2)) exampleURL outputDir
        emptyWorld).world.fs (artifactPath exampleLib outputDir exampleURL)
      = some (.file "%P".toList) ∧
    fileExists (downloadPDF exampleLib (exampleEnv (some pdfResponse) false (some 2)) exampleURL
        outputDir emptyWorld).world (artifactPath exampleLib outputDir exampleURL) = true := by
  have hrun := downloadPDF_of_pdf exampleLib (exampleEnv (some pdfResponse) false (some 2))
    exampleURL outputDir emptyWorld pdfResponse rfl rfl pdfResponse_isPdf
  obtain ⟨w0, hc, hfile, -, -, -⟩ := osCreate_fileWrite
    (exampleEnv (some pdfResponse) false (some 2)) (artifactPath exampleLib outputDir exampleURL)
    pdfResponse.body { emptyWorld with requests := emptyWorld.requests ++ [exampleURL] }
    (by simp [emptyWorld]) rfl
  rw [hc] at hrun
  have hfs : (downloadPDF exampleLib (exampleEnv (some pdfResponse) false (some 2)) exampleURL
      outputDir emptyWorld).world.fs (artifactPath exampleLib outputDir exampleURL)
      = some (.file "%P".toList) := by
    rw [hrun]
    exact hfile
  refine ⟨rfl, rfl, hfs, ?_⟩
  simp only [fileExists, hfs]
  decide

/-- C8 (amended): with nothing at the artifact path and a PDF response, when `os.Create` fails
`downloadPDF` returns with the filesystem as it was; when `os.Create` succeeds and the write fails
after `n` bytes, `downloadPDF` returns with a file at the artifact path that holds the first `n`
bytes of the body, which it does not remove, and with every other path as it was. -/
theorem downloadPDF_write_step_fails (L : Lib) (env : Env) (u d : GoString) (w : World)
    (resp : Response) (hnone : w.fs (artifactPath L d u) = none)
    (hget : env.get u = some resp) (hpdf : resp.IsPdf) :
    (env.createFails (artifactPath L d u) = true →
      ∃ w', downloadPDF L env u d w = .returned w' ∧ w'.fs = w.fs) ∧
    (∀ n, env.createFails (artifactPath L d u) = false →
      env.writeFails (artifactPath L d u) = some n →
      ∃ w', downloadPDF L env u d w = .returned w' ∧
        w'.fs (artifactPath L d u) = some (.file (resp.body.take n)) ∧
        ∀ p, p ≠ artifactPath L d u → w'.fs p = w.fs p) := by
  have hrun := downloadPDF_of_pdf L env u d w resp (fileExists_false_of_none w _ hnone) hget hpdf
  constructor
  · intro hcreate
    have hc : osCreate env (artifactPath L d u) { w with requests := w.requests ++ [u] }
        = none := by
      simp [osCreate, hcreate]
    rw [hc] at hrun
    exact ⟨_, hrun, rfl⟩
  · intro n hcreate hwrite
    have hdir : w.fs (artifactPath L d u) ≠ some .dir := by rw [hnone]; simp
    obtain ⟨w0, hc, hfile, hframe, _, _⟩ := osCreate_fileWrite env (artifactPath L d u)
      resp.body { w with requests := w.requests ++ [u] } hdir hcreate
    rw [hc] at hrun
    rw [hwrite] at hfile
    exact ⟨_, hrun, hfile, hframe⟩

/-- An instance of C8 (amended): from the empty world, with a PDF response, a failing `os.Create`
leaves the filesystem empty, and a write that fails after 2 bytes leaves the first 2 bytes of the
body at the artifact path. -/
theorem downloadPDF_write_step_fails_witness :
    emptyWorld.fs (artifactPath exampleLib outputDir exampleURL) = none ∧
    pdfResponse.IsPdf ∧
    ((exampleEnv (some pdfResponse) true none).createFails
        (artifactPath exampleLib outputDir exampleURL) = true ∧
      ∃ w', downloadPDF exampleLib (exampleEnv (some pdfResponse) true none) exampleURL outputDir
        emptyWorld = .returned w' ∧ w'.fs = emptyWorld.fs) ∧
    ((exampleEnv (some pdfResponse) false (some 2)).writeFails
        (artifactPath exampleLib outputDir exampleURL) = some 2 ∧
      ∃ w', downloadPDF exampleLib (exampleEnv (some pdfResponse) false (some 2)) exampleURL
        outputDir emptyWorld = .returned w' ∧
      w'.fs (artifactPath exampleLib outputDir exampleURL)
        = some (.file (pdfResponse.body.take 2)) ∧
      ∀ p, p ≠ artifactPath exampleLib outputDir exampleURL → w'.fs p = emptyWorld.fs p) :=
  ⟨rfl, pdfResponse_isPdf,
   ⟨rfl, (downloadPDF_write_step_fails exampleLib (exampleEnv (some pdfResponse) true none)
      exampleURL outputDir emptyWorld pdfResponse rfl rfl pdfResponse_isPdf).1 rfl⟩,
   ⟨rfl, (downloadPDF_write_step_fails exampleLib (exampleEnv (some pdfResponse) false (some 2))
      exampleURL outputDir emptyWorld pdfResponse rfl rfl pdfResponse_isPdf).2 2 rfl rfl⟩⟩

/-! ## Proofs: `isUrlValid` and the loop of `main` -/

theorem isUrlValid_of_ctl (L : Lib) (s : GoString) (h : stringContainsCTLByte s = true) :
    isUrlValid L s = false := by
  simp [isUrlValid, parseRequestURI, parse, h]

theorem isUrlValid_nil (L : Lib) : isUrlValid L [] = false := by
  simp [isUrlValid, parseRequestURI, parse, stringContainsCTLByte]

theorem getSchemeLoop_no_colon (raw : GoString) :
    ∀ (rest : GoString) (i : Nat), ':' ∉ rest → getSchemeLoop raw rest i = .ok ([], raw) := by
  intro rest
  induction rest with
  | nil => intro i _; rfl
  | cons c rest ih =>
    intro i h
    have hc : c ≠ ':' := fun e => h (e ▸ List.mem_cons_self _ _)
    have hrest : ':' ∉ rest := fun e => h (List.mem_cons_of_mem _ e)
    unfold getSchemeLoop
    repeat' split
    all_goals first | rfl | exact ih _ hrest

theorem hasPrefix_slash (s : GoString) : hasPrefix s ['/'] = true ↔ ∃ t, s = '/' :: t := by
  cases s with
  | nil => simp [hasPrefix, List.isPrefixOf]
  | cons c t =>
    simp only [hasPrefix, List.isPrefixOf, Bool.and_true, beq_iff_eq, List.cons.injEq,
      exists_eq_right']
    exact eq_comm

/-- What the query split leaves is a prefix of the text. -/
theorem cutQuery_prefix (rest : GoString) : cutQuery rest <+: rest := by
  unfold cutQuery
  split
  · exact List.dropLast_prefix rest
  · exact List.takeWhile_prefix _

/-- A text with no colon that is not `*` and does not start with a slash is not a valid URL. -/
theorem isUrlValid_relative (L : Lib) (s : GoString) (hstar : s ≠ ['*'])
    (hslash : hasPrefix s ['/'] = false) (hcolon : ':' ∉ s) : isUrlValid L s = false := by
  cases hctl : stringContainsCTLByte s with
  | true => exact isUrlValid_of_ctl L s hctl
  | false =>
    have hcut : hasPrefix (cutQuery s) ['/'] = false := by
      cases h : hasPrefix (cutQuery s) ['/'] with
      | false => rfl
      | true =>
        obtain ⟨t, ht⟩ := (hasPrefix_slash _).1 h
        obtain ⟨t', ht'⟩ := cutQuery_prefix s
        have : hasPrefix s ['/'] = true := (hasPrefix_slash s).2 ⟨t ++ t', by rw [← ht', ht]; rfl⟩
        rw [hslash] at this
        cases this
    by_cases hnil : s = []
    · rw [hnil]
      exact isUrlValid_nil L
    · simp [isUrlValid, parseRequestURI, parse, hctl, hstar, hnil, getScheme,
        getSchemeLoop_no_colon s s 0 hcolon, hcut]

theorem unescapePathOk_no_percent (s : GoString) (h : '%' ∉ s) : unescapePathOk s = true := by
  induction s with
  | nil => rfl
  | cons c rest ih =>
    have hc : c ≠ '%' := fun e => h (e ▸ List.mem_cons_self _ _)
    unfold unescapePathOk
    rw [if_neg hc]
    exact ih (fun e => h (List.mem_cons_of_mem _ e))

theorem cutQuery_slash (t : GoString) :
    ∃ t', cutQuery ('/' :: t) = '/' :: t' ∧ ∀ c ∈ t', c ∈ t := by
  unfold cutQuery
  split
  · rename_i h
    cases t with
    | nil => simp at h
    | cons a t =>
      exact ⟨(a :: t).dropLast, by simp [List.dropLast], fun c hc => List.mem_of_mem_dropLast hc⟩
  · refine ⟨t.takeWhile (· ≠ '?'), ?_, fun c hc => (List.takeWhile_prefix _).subset hc⟩
    rw [List.takeWhile_cons]
    simp

/-- A slash followed by characters that are neither control characters nor `%` is a valid URL. -/
theorem isUrlValid_rooted (L : Lib) (t : GoString)
    (h : ∀ c ∈ t, ¬ (c.toNat < 0x20 ∨ c.toNat = 0x7f) ∧ c ≠ '%') :
    isUrlValid L ('/' :: t) = true := by
  have hctl : stringContainsCTLByte ('/' :: t) = false := by
    simp only [stringContainsCTLByte, List.any_cons, Bool.or_eq_false_iff, List.any_eq_false]
    refine ⟨by decide, ?_⟩
    intro c hc
    have := (h c hc).1
    simp only [not_or] at this
    simp [this.1, this.2]
  have hscheme : getScheme ('/' :: t) = .ok ([], '/' :: t) := by
    simp [getScheme, getSchemeLoop]
  obtain ⟨t', hcut, hsub⟩ := cutQuery_slash t
  have hpre : hasPrefix ('/' :: t') ['/'] = true := (hasPrefix_slash _).2 ⟨t', rfl⟩
  have hesc : unescapePathOk ('/' :: t') = true := by
    apply unescapePathOk_no_percent
    intro hm
    rcases List.mem_cons.1 hm with e | e
    · exact absurd e (by decide)
    · exact (h _ (hsub _ e)).2 rfl
  have hstar : ('/' :: t) ≠ ['*'] := by
    intro e
    simp at e
  simp [isUrlValid, parseRequestURI, parse, hctl, hscheme, hcut, hpre, hesc]

theorem fileWrite_requests (env : Env) (path data : GoString) (w : World) :
    (fileWrite env path data w).2.requests = w.requests := by
  unfold fileWrite
  split <;> rfl

theorem osCreate_requests (env : Env) (path : GoString) (w w' : World)
    (h : osCreate env path w = some w') : w'.requests = w.requests := by
  unfold osCreate at h
  split at h
  · cases h
  · cases h
    rfl

/-- Every call of `downloadPDF` returns, and issues at most one request, for its URL. -/
theorem downloadPDF_returns (L : Lib) (env : Env) (u d : GoString) (w : World) :
    ∃ w', downloadPDF L env u d w = .returned w' ∧
      (w'.requests = w.requests ∨ w'.requests = w.requests ++ [u]) := by
  cases hfile : fileExists w (artifactPath L d u) with
  | true => exact ⟨_, downloadPDF_of_exists L env u d w hfile, Or.inl rfl⟩
  | false =>
    by_cases hpdf : ∃ resp, env.get u = some resp ∧ resp.IsPdf
    · obtain ⟨resp, hget, hpdf⟩ := hpdf
      rw [downloadPDF_of_pdf L env u d w resp hfile hget hpdf]
      cases hc : osCreate env (artifactPath L d u) { w with requests := w.requests ++ [u] } with
      | none => exact ⟨_, rfl, Or.inr rfl⟩
      | some w0 =>
        refine ⟨_, rfl, Or.inr ?_⟩
        rw [fileWrite_requests, osCreate_requests _ _ _ _ hc]
    · refine ⟨_, downloadPDF_of_not_pdf L env u d w hfile ?_, Or.inr rfl⟩
      intro resp hget hp
      exact hpdf ⟨resp, hget, hp⟩

/-- The loop of `main` skips a link that is not a valid URL. -/
theorem downloadLoop_skip (L : Lib) (env : Env) (d url : GoString) (rest : List GoString)
    (w : World) (h : isUrlValid L url = false) :
    downloadLoop L env d (url :: rest) w = downloadLoop L env d rest w := by
  simp [downloadLoop, h]

/-- The loop of `main` passes a link that is a valid URL to `downloadPDF`, as it is, and goes on
with the other links. -/
theorem downloadLoop_valid (L : Lib) (env : Env) (d url : GoString) (rest : List GoString)
    (w : World) (h : isUrlValid L url = true) :
    downloadLoop L env d (url :: rest) w =
      match downloadPDF L env url d w with
      | .returned w' => downloadLoop L env d rest w'
      | .exited code w' => .exited code w' := by
  simp [downloadLoop, h]

/-- The loop of `main` does what it would do on the valid links alone. -/
theorem downloadLoop_filter (L : Lib) (env : Env) (d : GoString) (links : List GoString) :
    ∀ w, downloadLoop L env d links w = downloadLoop L env d (links.filter (isUrlValid L)) w := by
  induction links with
  | nil => intro w; rfl
  | cons url rest ih =>
    intro w
    cases h : isUrlValid L url with
    | false => rw [downloadLoop_skip L env d url rest w h, List.filter_cons_of_neg (by simp [h])]
               exact ih w
    | true =>
      rw [List.filter_cons_of_pos h, downloadLoop_valid L env d url rest w h,
        downloadLoop_valid L env d url _ w h]
      cases downloadPDF L env url d w with
      | returned w' => exact ih w'
      | exited code w' => rfl

/-- The loop of `main` returns, and every request it issues is for one of the links that is a
valid URL. -/
theorem downloadLoop_requests (L : Lib) (env : Env) (d : GoString) (links : List GoString) :
    ∀ w, ∃ w', downloadLoop L env d links w = .returned w' ∧
      ∀ u ∈ w'.requests, u ∈ w.requests ∨ (u ∈ links ∧ isUrlValid L u = true) := by
  induction links with
  | nil => intro w; exact ⟨w, rfl, fun u hu => Or.inl hu⟩
  | cons url rest ih =>
    intro w
    cases h : isUrlValid L url with
    | false =>
      obtain ⟨w', hrun, hreq⟩ := ih w
      refine ⟨w', by rw [downloadLoop_skip L env d url rest w h, hrun], ?_⟩
      intro u hu
      rcases hreq u hu with h1 | ⟨h1, h2⟩
      · exact Or.inl h1
      · exact Or.inr ⟨List.mem_cons_of_mem _ h1, h2⟩
    | true =>
      obtain ⟨w1, hrun1, hreq1⟩ := downloadPDF_returns L env url d w
      obtain ⟨w', hrun, hreq⟩ := ih w1
      refine ⟨w', by rw [downloadLoop_valid L env d url rest w h, hrun1]; exact hrun, ?_⟩
      intro u hu
      rcases hreq u hu with h1 | ⟨h1, h2⟩
      · rcases hreq1 with e | e
        · exact Or.inl (e ▸ h1)
        · rw [e] at h1
          rcases List.mem_append.1 h1 with h3 | h3
          · exact Or.inl h3
          · rw [List.mem_singleton.1 h3]
            exact Or.inr ⟨List.mem_cons_self _ _, h⟩
      · exact Or.inr ⟨List.mem_cons_of_mem _ h1, h2⟩

theorem createDirectory_requests (env : Env) (path : GoString) (perm : Nat) (w : World) :
    (createDirectory env path perm w).requests = w.requests := by
  unfold createDirectory
  split <;> rfl

theorem appendByteToFile_requests (env : Env) (path data : GoString) (w : World) :
    (appendByteToFile env path data w).2.requests = w.requests := by
  unfold appendByteToFile
  split
  · rfl
  · rw [fileWrite_requests]
    split <;> rfl

theorem getDataFromURL_requests (env : Env) (uri fileName : GoString) (w : World) :
    (getDataFromURL env uri fileName w).requests = w.requests ++ [uri] := by
  unfold getDataFromURL
  simp only
  split
  · rfl
  · split
    · rfl
    · split
      · rfl
      · split
        · rfl
        · have h := appendByteToFile_requests env fileName (by assumption : Response).body
            { w with requests := w.requests ++ [uri] }
          split <;> rename_i heq <;> rw [heq] at h <;> exact h

theorem mainSetup_requests (env : Env) (w : World) :
    ∀ u ∈ (mainSetup env w).requests, u ∈ w.requests ∨ u = remoteURL := by
  have h1 : (if !directoryExists w outputDir then createDirectory env outputDir 0o755 w
      else w).requests = w.requests := by
    split
    · exact createDirectory_requests env outputDir 0o755 w
    · rfl
  have key : ∀ w1 : World, w1.requests = w.requests →
      ∀ u ∈ (if !fileExists w1 localHTMLFileRemoteLocation then
          getDataFromURL env remoteURL localHTMLFileRemoteLocation w1 else w1).requests,
        u ∈ w.requests ∨ u = remoteURL := by
    intro w1 hw1 u hu
    split at hu
    · rw [getDataFromURL_requests, hw1] at hu
      rcases List.mem_append.1 hu with h | h
      · exact Or.inl h
      · exact Or.inr (List.mem_singleton.1 h)
    · rw [hw1] at hu
      exact Or.inl hu
  intro u hu
  exact key _ h1 u hu

/-- Every request `main` issues is for the listing page or for a valid URL. -/
theorem main_requests (L : Lib) (env : Env) (w : World) :
    ∀ u ∈ (main L env w).world.requests,
      u ∈ w.requests ∨ u = remoteURL ∨ isUrlValid L u = true := by
  intro u hu
  have hsetup := mainSetup_requests env w
  unfold main at hu
  simp only at hu
  split at hu
  · rename_i w' heq
    have hw' : w'.requests = (mainSetup env w).requests := by
      split at heq
      · unfold readAFileAsString at heq
        split at heq
        · split at heq
          · cases heq; rfl
          · cases heq
        · cases heq; rfl
      · cases heq
    simp only [Outcome.world] at hu
    rw [hw'] at hu
    rcases hsetup u hu with h | h
    · exact Or.inl h
    · exact Or.inr (Or.inl h)
  · rename_i content heq
    obtain ⟨w', hrun, hreq⟩ := downloadLoop_requests L env outputDir (mainLinks content)
      (mainSetup env w)
    rw [hrun] at hu
    rcases hreq u hu with h | ⟨_, h⟩
    · rcases hsetup u h with h | h
      · exact Or.inl h
      · exact Or.inr (Or.inl h)
    · exact Or.inr (Or.inr h)

/-- C7: `isUrlValid` is false for the empty string and for every string that holds an ASCII
control character (below `0x20`, or `0x7f`); the loop of `main` does what it would do on the
valid links alone, so that `main` issues no request for a link that is not valid (a link is not
the listing page, whose URL is requested whatever it is). -/
theorem isUrlValid_filters_malformed (L : Lib) :
    isUrlValid L [] = false ∧
    (∀ s : GoString, (∃ c ∈ s, c.toNat < 0x20 ∨ c.toNat = 0x7f) → isUrlValid L s = false) ∧
    (∀ (env : Env) (d : GoString) (links : List GoString) (w : World),
      downloadLoop L env d links w = downloadLoop L env d (links.filter (isUrlValid L)) w) ∧
    (∀ (env : Env) (w : World) (s : GoString), isUrlValid L s = false → s ≠ remoteURL →
      s ∉ w.requests → s ∉ (main L env w).world.requests) := by
  refine ⟨isUrlValid_nil L, ?_, fun env d links w => downloadLoop_filter L env d links w, ?_⟩
  · rintro s ⟨c, hc, hctl⟩
    apply isUrlValid_of_ctl
    simp only [stringContainsCTLByte, List.any_eq_true, Bool.or_eq_true, decide_eq_true_eq]
    exact ⟨c, hc, hctl⟩
  · intro env w s hs hne hnot hmem
    rcases main_requests L env w s hmem with h | h | h
    · exact hnot h
    · exact hne h
    · rw [hs] at h
      cases h

/-- C10: a string other than `*` that does not start with a slash and has no colon (a
document-relative link such as `docs/manual.pdf`) is not a valid URL, and the loop of `main` goes
past it without a call of `downloadPDF`; a slash followed by characters that are neither control
characters nor `%` (such as `/docs/manual.pdf`) is a valid URL, and the loop of `main` passes it
unchanged to `downloadPDF`. -/
theorem isUrlValid_relative_rejected_rooted_accepted (L : Lib) :
    (∀ s : GoString, s ≠ ['*'] → hasPrefix s ['/'] = false → ':' ∉ s →
      isUrlValid L s = false ∧
      ∀ (env : Env) (d : GoString) (rest : List GoString) (w : World),
        downloadLoop L env d (s :: rest) w = downloadLoop L env d rest w) ∧
    (∀ t : GoString, (∀ c ∈ t, ¬ (c.toNat < 0x20 ∨ c.toNat = 0x7f) ∧ c ≠ '%') →
      isUrlValid L ('/' :: t) = true ∧
      ∀ (env : Env) (d : GoString) (rest : List GoString) (w : World),
        downloadLoop L env d (('/' :: t) :: rest) w =
          match downloadPDF L env ('/' :: t) d w with
          | .returned w' => downloadLoop L env d rest w'
          | .exited code w' => .exited code w') ∧
    isUrlValid L "docs/manual.pdf".toList = false ∧
    isUrlValid L "/docs/manual.pdf".toList = true := by
  refine ⟨?_, ?_, ?_, ?_⟩
  · intro s hstar hslash hcolon
    have h := isUrlValid_relative L s hstar hslash hcolon
    exact ⟨h, fun env d rest w => downloadLoop_skip L env d s rest w h⟩
  · intro t ht
    have h := isUrlValid_rooted L t ht
    exact ⟨h, fun env d rest w => downloadLoop_valid L env d _ rest w h⟩
  · exact isUrlValid_relative L _ (by decide) (by decide) (by decide)
  · exact isUrlValid_rooted L "docs/manual.pdf".toList (by decide)

end PdfFetch
